import Mathlib

/-!
Verification development for the doubao-free-api chat controller
(src/api/controllers/chat.ts).

Strings are modelled as lists of characters (`Str`), bytes as natural
numbers below 256.  JavaScript `JSON.parse` is modelled by `jsonParse`
over an inductive `JVal`; `Buffer.toString("utf8")` is modelled by
`utf8Decode` (WHATWG replacement-character decoding); the
`eventsource-parser` dependency is modelled as a character automaton
following the server-sent-events framing it implements.
-/

set_option maxRecDepth 100000

/-- Equality on `Except` results is decidable (needed to evaluate the
models on concrete inputs). -/
instance {ε α : Type} [DecidableEq ε] [DecidableEq α] : DecidableEq (Except ε α) := fun a b =>
  match a, b with
  | .error x, .error y =>
    if h : x = y then .isTrue (by rw [h]) else .isFalse (by intro hh; cases hh; exact h rfl)
  | .ok x, .ok y =>
    if h : x = y then .isTrue (by rw [h]) else .isFalse (by intro hh; cases hh; exact h rfl)
  | .error _, .ok _ => .isFalse (by intro hh; cases hh)
  | .ok _, .error _ => .isFalse (by intro hh; cases hh)

/-! ## Strings and basic utilities -/

abbrev Str := List Char

def strOf (s : String) : Str := s.data

/-- Left brace character (written numerically so that no brace appears in a
string literal). -/
def lbChar : Char := Char.ofNat 123

/-- Right brace character. -/
def rbChar : Char := Char.ofNat 125

def lb : Str := [lbChar]

def rb : Str := [rbChar]

/-- Does `s` start with the pattern `pat`? (model of `/^pat/.test(s)` and
`String.prototype.startsWith`). -/
def strStarts : Str → Str → Bool
  | [], _ => true
  | _ :: _, [] => false
  | p :: ps, c :: cs => p == c && strStarts ps cs

/-- Does `s` contain `pat` as a contiguous substring? -/
def strContains (pat : Str) : Str → Bool
  | [] => strStarts pat []
  | c :: cs => strStarts pat (c :: cs) || strContains pat cs

/-- JavaScript whitespace for `String.prototype.trim` (the common ASCII
whitespace characters; the source never feeds exotic Unicode spaces here). -/
def isWsChar (c : Char) : Bool :=
  c == ' ' || c == '\n' || c == '\t' || c == '\r' || c == Char.ofNat 12 || c == Char.ofNat 11

/-- Model of `String.prototype.trim`. -/
def strTrim (s : Str) : Str :=
  (((s.dropWhile isWsChar).reverse).dropWhile isWsChar).reverse

/-- `split(/\r?\n/)` — the source always splits on newlines; carriage returns
immediately before a newline are absorbed. -/
def splitLines (s : Str) : List Str :=
  let raw := List.splitOn '\n' s
  raw.map (fun l => match l.reverse with
    | '\r' :: rest => rest.reverse
    | _ => l)

/-- `Array.prototype.join(sep)` / `List.intercalate`. -/
def joinWith (sep : Str) : List Str → Str
  | [] => []
  | [x] => x
  | x :: xs => x ++ sep ++ joinWith sep xs

def isDigitC (c : Char) : Bool := '0' ≤ c && c ≤ '9'

def isHexC (c : Char) : Bool :=
  isDigitC c || ('a' ≤ c && c ≤ 'f') || ('A' ≤ c && c ≤ 'F')

def hexVal (c : Char) : Nat :=
  if isDigitC c then c.toNat - '0'.toNat
  else if 'a' ≤ c && c ≤ 'f' then c.toNat - 'a'.toNat + 10
  else if 'A' ≤ c && c ≤ 'F' then c.toNat - 'A'.toNat + 10
  else 0

/-- Lowercase hex digit for a value below 16 (JS `toString(16)` digits). -/
def hexDigitLower (n : Nat) : Char :=
  if n < 10 then Char.ofNat ('0'.toNat + n) else Char.ofNat ('a'.toNat + (n - 10))

/-- Uppercase hex digit. -/
def hexDigitUpper (n : Nat) : Char :=
  if n < 10 then Char.ofNat ('0'.toNat + n) else Char.ofNat ('A'.toNat + (n - 10))

/-- `n.toString(16)` for naturals (lowercase, no leading zeros, `0` for zero). -/
def natToHexLower (n : Nat) : Str :=
  if n = 0 then ['0'] else
    (Nat.toDigits 16 n).map (fun c => c)

/-- `String.prototype.padStart(w, '0')`. -/
def padStartZero (w : Nat) (s : Str) : Str :=
  List.replicate (w - s.length) '0' ++ s

/-! ## JavaScript JSON values (`JSON.parse` model)

Numbers are modelled as integers: every number in the upstream protocol
frames handled by chat.ts (`event_type`, `code`, `is_finish`,
`UriStatus`, …) is integral; a fractional part or exponent in the input
is consumed and discarded.  Strings accept the JSON escapes the frames
use (`\"  \\  \/  \b \f \n \r \t \uXXXX`, no surrogate pairing). -/

inductive JVal where
  | jnull
  | jbool (b : Bool)
  | jnum (n : Int)
  | jstr (s : Str)
  | jarr (xs : List JVal)
  | jobj (fields : List (Str × JVal))

/-- Member access `v.field` on a parsed JSON value: `undefined` (`none`) for
non-objects and missing keys; for duplicate keys `JSON.parse` keeps the last
occurrence. -/
def getField : JVal → Str → Option JVal
  | .jobj fs, k => (fs.reverse.find? (fun p => p.1 == k)).map (fun p => p.2)
  | _, _ => none

/-- JavaScript truthiness of a field access result (`undefined`, `null`,
`false`, `0` and `""` are falsy; objects and arrays are truthy). -/
def truthy : Option JVal → Bool
  | none => false
  | some .jnull => false
  | some (.jbool b) => b
  | some (.jnum n) => n != 0
  | some (.jstr s) => !s.isEmpty
  | some (.jarr _) => true
  | some (.jobj _) => true

/-- Loose numeric equality `v == n` as used for `event_type` checks: a JSON
number compares directly; a string of digits (with surrounding whitespace)
coerces to a number.  Other shapes (never produced by the upstream) compare
false. -/
def looseEqNum (v : Option JVal) (n : Int) : Bool :=
  match v with
  | some (.jnum m) => m == n
  | some (.jstr s) =>
      let t := strTrim s
      (!t.isEmpty && t.all isDigitC) && ((t.foldl (fun a c => a * 10 + (c.toNat - '0'.toNat)) 0 : Nat) : Int) == n
  | _ => false

def skipWs (s : Str) : Str := s.dropWhile (fun c => isWsChar c)

/-- Body of a JSON string after the opening quote: returns the decoded
characters and the remainder after the closing quote. -/
def parseStrBody : Str → Option (Str × Str)
  | [] => none
  | '"' :: rest => some ([], rest)
  | '\\' :: rest =>
      match rest with
      | [] => none
      | e :: rest2 =>
        if e == 'u' then
          match rest2 with
          | h1 :: h2 :: h3 :: h4 :: rest3 =>
            if isHexC h1 && isHexC h2 && isHexC h3 && isHexC h4 then
              (parseStrBody rest3).map (fun p =>
                (Char.ofNat (((hexVal h1 * 16 + hexVal h2) * 16 + hexVal h3) * 16 + hexVal h4) :: p.1, p.2))
            else none
          | _ => none
        else
          let dec : Option Char :=
            if e == '"' then some '"'
            else if e == '\\' then some '\\'
            else if e == '/' then some '/'
            else if e == 'b' then some (Char.ofNat 8)
            else if e == 'f' then some (Char.ofNat 12)
            else if e == 'n' then some '\n'
            else if e == 'r' then some '\r'
            else if e == 't' then some '\t'
            else none
          match dec with
          | some c => (parseStrBody rest2).map (fun p => (c :: p.1, p.2))
          | none => none
  | c :: rest => (parseStrBody rest).map (fun p => (c :: p.1, p.2))

/-- Number literal: optional minus, digits; fraction and exponent are
consumed and discarded (all protocol numbers are integral). -/
def parseNum (s : Str) : Option (Int × Str) :=
  let (neg, s1) := match s with
    | '-' :: rest => (true, rest)
    | _ => (false, s)
  let ds := s1.takeWhile isDigitC
  let rest := s1.dropWhile isDigitC
  if ds.isEmpty then none
  else
    let n : Nat := ds.foldl (fun a c => a * 10 + (c.toNat - '0'.toNat)) 0
    let rest2 := match rest with
      | '.' :: r => r.dropWhile isDigitC
      | _ => rest
    let rest3 := match rest2 with
      | 'e' :: r | 'E' :: r =>
          (match r with
           | '+' :: r2 => r2.dropWhile isDigitC
           | '-' :: r2 => r2.dropWhile isDigitC
           | _ => r.dropWhile isDigitC)
      | _ => rest2
    some (if neg then -(n : Int) else (n : Int), rest3)

mutual

/-- JSON value parser (fuel-driven; `jsonParse` supplies ample fuel). -/
def parseVal (fuel : Nat) (s : Str) : Option (JVal × Str) :=
  match fuel with
  | 0 => none
  | fuel + 1 =>
    let s := skipWs s
    match s with
    | 'n' :: 'u' :: 'l' :: 'l' :: rest => some (.jnull, rest)
    | 't' :: 'r' :: 'u' :: 'e' :: rest => some (.jbool true, rest)
    | 'f' :: 'a' :: 'l' :: 's' :: 'e' :: rest => some (.jbool false, rest)
    | '"' :: rest => (parseStrBody rest).map (fun p => (.jstr p.1, p.2))
    | '[' :: rest =>
        (match skipWs rest with
         | ']' :: rest2 => some (.jarr [], rest2)
         | s2 => (parseElems fuel s2).map (fun p => (.jarr p.1, p.2)))
    | c :: rest =>
        if c = lbChar then
          (match skipWs rest with
           | s2 =>
             if s2.head? = some rbChar then some (.jobj [], s2.tail)
             else (parseFields fuel s2).map (fun p => (.jobj p.1, p.2)))
        else if c = '-' || isDigitC c then
          (parseNum (c :: rest)).map (fun p => (.jnum p.1, p.2))
        else none
    | [] => none

/-- One or more array elements separated by commas, then `]`. -/
def parseElems (fuel : Nat) (s : Str) : Option (List JVal × Str) :=
  match fuel with
  | 0 => none
  | fuel + 1 =>
    match parseVal fuel s with
    | none => none
    | some (v, rest) =>
      match skipWs rest with
      | ',' :: rest2 => (parseElems fuel rest2).map (fun p => (v :: p.1, p.2))
      | ']' :: rest2 => some ([v], rest2)
      | _ => none

/-- One or more object fields separated by commas, then `}`. -/
def parseFields (fuel : Nat) (s : Str) : Option (List (Str × JVal) × Str) :=
  match fuel with
  | 0 => none
  | fuel + 1 =>
    match skipWs s with
    | '"' :: rest =>
      match parseStrBody rest with
      | none => none
      | some (k, rest2) =>
        match skipWs rest2 with
        | ':' :: rest3 =>
          match parseVal fuel rest3 with
          | none => none
          | some (v, rest4) =>
            match skipWs rest4 with
            | ',' :: rest5 => (parseFields fuel rest5).map (fun p => ((k, v) :: p.1, p.2))
            | c :: rest5 => if c = rbChar then some ([(k, v)], rest5) else none
            | _ => none
        | _ => none
    | _ => none

end

/-- Model of `JSON.parse`: `none` on a syntax error.  The fuel bound
`2 * length + 2` exceeds any possible number of parser steps for the
input. -/
def jsonParse (s : Str) : Option JVal :=
  match parseVal (2 * s.length + 2) s with
  | some (v, rest) => if (skipWs rest).isEmpty then some v else none
  | none => none

/-! ## UTF-8 (Buffer.toString("utf8") and byte encoding) -/

/-- The replacement character U+FFFD produced by lossy UTF-8 decoding. -/
def replChar : Char := Char.ofNat 0xFFFD

/-- UTF-8 encoding of one scalar value (used by the request signer's
percent-encoding and to build byte-level test inputs). -/
def utf8EncodeChar (c : Char) : List Nat :=
  let n := c.toNat
  if n < 0x80 then [n]
  else if n < 0x800 then [0xC0 + n / 64, 0x80 + n % 64]
  else if n < 0x10000 then [0xE0 + n / 4096, 0x80 + (n / 64) % 64, 0x80 + n % 64]
  else [0xF0 + n / 262144, 0x80 + (n / 4096) % 64, 0x80 + (n / 64) % 64, 0x80 + n % 64]

/-- UTF-8 encode a string to bytes. -/
def strBytes (s : Str) : List Nat := (s.map utf8EncodeChar).flatten

def isCont (b : Nat) : Bool := 0x80 ≤ b && b ≤ 0xBF

/-- Second-byte range check for a three-byte lead (E0 excludes overlongs,
ED excludes surrogates). -/
def cont3ok (b b2 : Nat) : Bool :=
  (if b = 0xE0 then 0xA0 else 0x80) ≤ b2 && b2 ≤ (if b = 0xED then 0x9F else 0xBF)

/-- Second-byte range check for a four-byte lead (F0 excludes overlongs,
F4 caps at U+10FFFF). -/
def cont4ok (b b2 : Nat) : Bool :=
  (if b = 0xF0 then 0x90 else 0x80) ≤ b2 && b2 ≤ (if b = 0xF4 then 0x8F else 0xBF)

def mkChar2 (b b2 : Nat) : Char := Char.ofNat ((b - 0xC0) * 64 + (b2 - 0x80))

def mkChar3 (b b2 b3 : Nat) : Char :=
  Char.ofNat (((b - 0xE0) * 64 + (b2 - 0x80)) * 64 + (b3 - 0x80))

def mkChar4 (b b2 b3 b4 : Nat) : Char :=
  Char.ofNat ((((b - 0xF0) * 64 + (b2 - 0x80)) * 64 + (b3 - 0x80)) * 64 + (b4 - 0x80))

/-- Is `b` a byte that decodes on its own (ASCII) — helper for the one-byte
tail case. -/
def asciiOrRepl (b : Nat) : Char := if b < 0x80 then Char.ofNat b else replChar

/-- Model of `Buffer.toString("utf8")`: lossy UTF-8 decoding following the
WHATWG decoder — on an invalid or truncated sequence the maximal subpart
is consumed and one U+FFFD is emitted. -/
def utf8Decode : List Nat → List Char
  | [] => []
  | [b] => [asciiOrRepl b]
  | b :: b2 :: rest2 =>
    if b < 0x80 then Char.ofNat b :: utf8Decode (b2 :: rest2)
    else if 0xC2 ≤ b && b ≤ 0xDF then
      (if isCont b2 then mkChar2 b b2 :: utf8Decode rest2
       else replChar :: utf8Decode (b2 :: rest2))
    else if 0xE0 ≤ b && b ≤ 0xEF then
      (if cont3ok b b2 then
        match rest2 with
        | [] => [replChar]
        | b3 :: rest3 =>
            if isCont b3 then mkChar3 b b2 b3 :: utf8Decode rest3
            else replChar :: utf8Decode (b3 :: rest3)
       else replChar :: utf8Decode (b2 :: rest2))
    else if 0xF0 ≤ b && b ≤ 0xF4 then
      (if cont4ok b b2 then
        match rest2 with
        | [] => [replChar]
        | b3 :: rest3 =>
            if isCont b3 then
              match rest3 with
              | [] => [replChar]
              | b4 :: rest4 =>
                  if isCont b4 then mkChar4 b b2 b3 b4 :: utf8Decode rest4
                  else replChar :: utf8Decode (b4 :: rest4)
            else replChar :: utf8Decode (b3 :: rest3)
       else replChar :: utf8Decode (b2 :: rest2))
    else replChar :: utf8Decode (b2 :: rest2)

/-- The `buffer.toString().indexOf(String.fromCharCode(0xFFFD)) != -1`
check used by both stream readers to detect a split multi-byte
character. -/
def hasRepl (bytes : List Nat) : Bool := (utf8Decode bytes).contains replChar

example : utf8Decode (strBytes (strOf "héllo")) = strOf "héllo" := by decide

example : hasRepl [0xC3] = true := by decide

example : hasRepl (strBytes (strOf "ok")) = false := by decide

example : looseEqNum ((jsonParse (lb ++ strOf "\"a\": 2003" ++ rb)).bind
    (fun v => getField v (strOf "a"))) 2003 = true := by decide

example : (match jsonParse (strOf "[1, -2, \"a\\nb\"]") with
    | some (.jarr [.jnum 1, .jnum (-2), .jstr s]) => s == strOf "a\nb"
    | _ => false) = true := by decide

/-! ## Server-sent-event framing (`createParser` of eventsource-parser)

Modelled as a character automaton following the SSE framing the library
implements: complete lines are classified, `data:` field values accumulate,
and a blank line dispatches one event whose data is the newline-join of the
accumulated values (no dispatch when no `data` field was seen).  The
upstream terminates lines with `\n`; a `\r` directly before the `\n` is
stripped. -/

structure PState where
  lineAcc : Str
  dataAcc : List Str
  events : List Str
deriving DecidableEq

def initPState : PState := ⟨[], [], []⟩

/-- Strip one carriage return at the end of a completed line. -/
def stripCr (l : Str) : Str :=
  match l.reverse with
  | '\r' :: r => r.reverse
  | _ => l

/-- Process one completed line. -/
def processLine (st : PState) (line : Str) : PState :=
  if line.isEmpty then
    match st.dataAcc with
    | [] => st
    | ds => { st with dataAcc := [], events := st.events ++ [joinWith (strOf "\n") ds] }
  else if strStarts (strOf "data:") line then
    let v := line.drop 5
    let v := match v with
      | ' ' :: r => r
      | _ => v
    { st with dataAcc := st.dataAcc ++ [v] }
  else if line == strOf "data" then
    { st with dataAcc := st.dataAcc ++ [[]] }
  else st

def sseStep (st : PState) (c : Char) : PState :=
  if c = '\n' then processLine { st with lineAcc := [] } (stripCr st.lineAcc)
  else { st with lineAcc := st.lineAcc ++ [c] }

def sseFeed (st : PState) (s : Str) : PState := s.foldl sseStep st

/-! ## Byte-chunk feeding shared by `receiveStream` and `createTransStream`

Both functions keep a `temp` buffer: an incoming chunk whose decode
contains U+FFFD is accumulated; otherwise the accumulated bytes are
prepended and the decoded text is fed to the SSE parser. -/

structure FeedState where
  temp : List Nat
  pst : PState
deriving DecidableEq

def initFeed : FeedState := ⟨[], initPState⟩

def feedChunk (st : FeedState) (chunk : List Nat) : FeedState :=
  if hasRepl chunk then { st with temp := st.temp ++ chunk }
  else { temp := [], pst := sseFeed st.pst (utf8Decode (st.temp ++ chunk)) }

/-- The events delivered to the parser callback for a given chunked byte
stream.  (The callbacks never feed data back into the parser, so the event
sequence factors out of both output folds.) -/
def chunksToEvents (chunks : List (List Nat)) : List Str :=
  (chunks.foldl feedChunk initFeed).pst.events

/-! ## Decoding one upstream event frame (shared callback front-end) -/

inductive ApiErr where
  | requestFailed
  | streamInvalid
  | fileUrlInvalid
  | fileSizeExceeded
  | contentTypeInvalid
  | downloadFailed
  | noAttemptEnv
deriving DecidableEq

structure Answer where
  id : Str
  content : Str
deriving DecidableEq

/-- `content.replace(/\n$/, "")` — remove a single trailing newline. -/
def trimOneNl (s : Str) : Str :=
  match s.reverse with
  | '\n' :: r => r.reverse
  | _ => s

/-- Extract the delta text from a truthy `message.content` value, trying the
payload shapes in the source's fixed priority order: a JSON string, an
object's `text` field, a nested `delta.text` field, then a `content` field;
a failed `JSON.parse` falls back to the raw string.  `JSON.parse("null")`
followed by the `.text` access is a TypeError (`.error`).  A non-string
`message.content` coerces before parsing and yields no text (the exotic
array-coercion corners of `String()` are elided; the upstream sends
strings). -/
def extractText (content : JVal) : Except Unit Str :=
  match content with
  | .jstr mc =>
    match jsonParse mc with
    | some (.jstr s) => .ok s
    | some .jnull => .error ()
    | some v =>
      match getField v (strOf "text") with
      | some (.jstr t) => .ok t
      | _ =>
        let viaDelta : Option Str :=
          match getField v (strOf "delta") with
          | some d =>
            if truthy (some d) then
              match getField d (strOf "text") with
              | some (.jstr t) => some t
              | _ => none
            else none
          | none => none
        match viaDelta with
        | some t => .ok t
        | none =>
          match getField v (strOf "content") with
          | some (.jstr t) => .ok t
          | _ => .ok []
    | none => .ok mc
  | _ => .ok []

/-- Classification of one parsed SSE event frame, shared by the buffered and
live transcoders. -/
inductive Frame where
  | badParse
  | badCode
  | finish2003
  | skip
  | f2001 (convId : Option Str) (isFin : Bool) (msgPart : Option (Except Unit Str))

/-- Decode an event's data payload: `JSON.parse`, the `code` truthiness
check, the `event_type` dispatch, and the nested `event_data` parse.
`convId` is a present-and-truthy string `conversation_id`; `isFin` is the
truthiness of `is_finish`; `msgPart` is `none` when `message`/
`message.content` is falsy, otherwise the text extraction outcome. -/
def parseFrame (ev : Str) : Frame :=
  match jsonParse ev with
  | none => .badParse
  | some raw =>
    if truthy (getField raw (strOf "code")) then .badCode
    else if looseEqNum (getField raw (strOf "event_type")) 2003 then .finish2003
    else if !(looseEqNum (getField raw (strOf "event_type")) 2001) then .skip
    else
      match getField raw (strOf "event_data") with
      | some (.jstr s) =>
        match jsonParse s with
        | none => .badParse
        | some .jnull => .badParse
        | some result =>
          let convId : Option Str :=
            match getField result (strOf "conversation_id") with
            | some (.jstr cid) => if cid.isEmpty then none else some cid
            | _ => none
          let isFin := truthy (getField result (strOf "is_finish"))
          let msgPart : Option (Except Unit Str) :=
            if !truthy (getField result (strOf "message")) then none
            else
              match getField result (strOf "message") with
              | some m =>
                match getField m (strOf "content") with
                | some c => if truthy (some c) then some (extractText c) else none
                | none => none
              | none => none
          .f2001 convId isFin msgPart
      | some (.jnum _) => .skip
      | some (.jbool _) => .skip
      | _ => .badParse

/-! ## Buffered transcoder (`receiveStream`) -/

structure BufState where
  isEnd : Bool
  id : Str
  content : Str
  settled : Option (Except ApiErr Answer)
deriving DecidableEq

def initBuf : BufState := ⟨false, [], [], none⟩

/-- A promise settles at most once: later `resolve`/`reject` calls are
no-ops. -/
def settleIfNone (st : BufState) (r : Except ApiErr Answer) : BufState :=
  { st with settled := match st.settled with
    | some x => some x
    | none => some r }

/-- `if (!data.id && result.conversation_id) data.id = result.conversation_id`. -/
def bufApplyConv (st : BufState) (convId : Option Str) : BufState :=
  match convId with
  | some cid => if st.id.isEmpty then { st with id := cid } else st
  | none => st

/-- Handling of `result.message` in the buffered callback: no truthy
content is a no-op, a crash in the extraction rejects, extracted text is
appended when non-empty. -/
def bufApplyMsg (st : BufState) (msgPart : Option (Except Unit Str)) : BufState :=
  match msgPart with
  | none => st
  | some (.error _) => settleIfNone st (.error .streamInvalid)
  | some (.ok t) => if t.isEmpty then st else { st with content := st.content ++ t }

/-- Finish handling: set the latch, trim one trailing newline, resolve with
the data collected so far. -/
def bufFinish (st : BufState) : BufState :=
  let c := trimOneNl st.content
  settleIfNone { st with isEnd := true, content := c } (.ok ⟨st.id, c⟩)

/-- One parser-callback invocation of `receiveStream`.  The `isEnd` latch
drops whole events once set; `reject` does not set the latch, so decoding
continues after an error (with the settled outcome frozen).  The id update
for a frame happens after its `is_finish` check (source order). -/
def bufStep (st : BufState) (ev : Str) : BufState :=
  if st.isEnd then st else
  match parseFrame ev with
  | .badParse => settleIfNone st (.error .streamInvalid)
  | .badCode => settleIfNone st (.error .requestFailed)
  | .finish2003 => bufFinish st
  | .skip => st
  | .f2001 convId isFin msgPart =>
      if isFin then bufFinish st
      else bufApplyMsg (bufApplyConv st convId) msgPart

/-- Buffered result for a list of delivered events: the stream `close`
handler resolves with the current data when nothing settled earlier. -/
def runBufferedEvents (events : List Str) : Except ApiErr Answer :=
  let st := events.foldl bufStep initBuf
  match st.settled with
  | some r => r
  | none => .ok ⟨st.id, st.content⟩

/-- `receiveStream` over a chunked byte stream ending with `close`. -/
def receiveStreamRun (chunks : List (List Nat)) : Except ApiErr Answer :=
  runBufferedEvents (chunksToEvents chunks)

/-! ## Live transcoder (`createTransStream`)

Output chunks elide the constant fields (`model`, `object`, `usage`,
`created` — the latter is captured once per stream and identical across
its chunks).  A write after `end` delivers nothing (Node raises a
write-after-end error instead of queueing data), and the
`!transStream.closed` guards always see `closed = false` during the
synchronous callback (the close event is asynchronous), so a second
`end(...)` call also delivers nothing — both are modelled as no-ops on an
ended stream. -/

inductive TChunk where
  | chunk (id : Str) (content : Str) (finish : Option Str)
  | done
  | errEnd
deriving DecidableEq

structure TState where
  convId : Str
  ended : Bool
  out : List TChunk
deriving DecidableEq

def twrite (st : TState) (c : TChunk) : TState :=
  if st.ended then st else { st with out := st.out ++ [c] }

def tendWith (st : TState) (c : TChunk) : TState :=
  if st.ended then st else { st with out := st.out ++ [c], ended := true }

/-- The initial empty-delta chunk written as soon as the trans stream is
created. -/
def initTState : TState := ⟨[], false, [.chunk [] [] none]⟩

def stopStr : Str := strOf "stop"

/-- `if (!convId) convId = result.conversation_id;` — assigned regardless of
the new value's truthiness. -/
def transConv (st : TState) (convId : Option Str) : TState :=
  if st.convId.isEmpty then { st with convId := convId.getD [] } else st

/-- Finish handling on the live stream: write the stop chunk (unguarded in
the source, but a write after end delivers nothing), then end with the
`[DONE]` marker. -/
def transFinish (st : TState) : TState :=
  tendWith (twrite st (.chunk st.convId [] (some stopStr))) .done

/-- Handling of `result.message` on the live stream: extracted non-empty
text is written as a delta chunk; a crash ends the stream with a bare
separator. -/
def transMsg (st : TState) (msgPart : Option (Except Unit Str)) : TState :=
  match msgPart with
  | none => st
  | some (.error _) => tendWith st .errEnd
  | some (.ok t) => if t.isEmpty then st else twrite st (.chunk st.convId t none)

/-- One parser-callback invocation of `createTransStream`.  There is no
`isEnd` latch here; a thrown error ends the stream with a bare
separator (`errEnd`), a finish frame writes the `finish_reason:"stop"`
chunk and ends with the `[DONE]` marker.  `convId` is assigned before the
`is_finish` check (source order), and keeps updating even after the
stream has ended. -/
def transStep (st : TState) (ev : Str) : TState :=
  match parseFrame ev with
  | .badParse => tendWith st .errEnd
  | .badCode => tendWith st .errEnd
  | .finish2003 => transFinish st
  | .skip => st
  | .f2001 convId isFin msgPart =>
      let st := transConv st convId
      if isFin then transFinish st
      else transMsg st msgPart

/-- The source stream's `close` (or `error`) handler ends the trans stream
with the `[DONE]` marker if it is still open. -/
def transClose (st : TState) : TState := tendWith st .done

def runLiveEvents (events : List Str) : TState :=
  events.foldl transStep initTState

/-- Live output for a list of delivered events, `close` included. -/
def runLiveOut (events : List Str) : List TChunk :=
  (transClose (runLiveEvents events)).out

/-- `createTransStream` output for a chunked byte stream ending with
`close`. -/
def createTransRun (chunks : List (List Nat)) : List TChunk :=
  runLiveOut (chunksToEvents chunks)

/-! Sanity checks on a small concrete frame. -/

def frameInner1 : Str :=
  lb ++ strOf "\"event_type\":2001,\"event_data\":\"" ++
    (lb ++ strOf "\\\"message\\\":" ++ lb ++ strOf "\\\"content\\\":\\\"hi\\\"" ++ rb ++ rb) ++
    strOf "\"" ++ rb

def frameBytes1 : List Nat := strBytes (strOf "data: " ++ frameInner1 ++ strOf "\n\n")

example : receiveStreamRun [frameBytes1] = .ok ⟨[], strOf "hi"⟩ := by decide

example : createTransRun [frameBytes1] =
    [.chunk [] [] none, .chunk [] (strOf "hi") none, .done] := by decide

/-! ## Split-invariance machinery for the byte feeding (C2) -/

theorem utf8Decode_one (b : Nat) : utf8Decode [b] = [asciiOrRepl b] := rfl

/-- Step equation of the decoder on two or more bytes (the compiled
pattern match, restated for rewriting). -/
theorem utf8Decode_cc (b b2 : Nat) (rest2 : List Nat) :
    utf8Decode (b :: b2 :: rest2) =
      (if b < 0x80 then Char.ofNat b :: utf8Decode (b2 :: rest2)
      else if 0xC2 ≤ b && b ≤ 0xDF then
        (if isCont b2 then mkChar2 b b2 :: utf8Decode rest2
         else replChar :: utf8Decode (b2 :: rest2))
      else if 0xE0 ≤ b && b ≤ 0xEF then
        (if cont3ok b b2 then
          match rest2 with
          | [] => [replChar]
          | b3 :: rest3 =>
              if isCont b3 then mkChar3 b b2 b3 :: utf8Decode rest3
              else replChar :: utf8Decode (b3 :: rest3)
         else replChar :: utf8Decode (b2 :: rest2))
      else if 0xF0 ≤ b && b ≤ 0xF4 then
        (if cont4ok b b2 then
          match rest2 with
          | [] => [replChar]
          | b3 :: rest3 =>
              if isCont b3 then
                match rest3 with
                | [] => [replChar]
                | b4 :: rest4 =>
                    if isCont b4 then mkChar4 b b2 b3 b4 :: utf8Decode rest4
                    else replChar :: utf8Decode (b4 :: rest4)
              else replChar :: utf8Decode (b3 :: rest3)
         else replChar :: utf8Decode (b2 :: rest2))
      else replChar :: utf8Decode (b2 :: rest2)) := by
  rw [utf8Decode.eq_def]

/-- Decoding distributes over append when the left part decodes without any
replacement character: every decode step of `a` then succeeded wholly
inside `a`, so appending more bytes cannot change it. -/
theorem utf8Decode_append : (a y : List Nat) → ¬ replChar ∈ utf8Decode a →
    utf8Decode (a ++ y) = utf8Decode a ++ utf8Decode y
  | [], y, _ => by simp [utf8Decode]
  | [b], y, h => by
      cases y with
      | nil => simp [utf8Decode]
      | cons y0 yr =>
        by_cases hb : b < 0x80
        · show utf8Decode (b :: y0 :: yr) = utf8Decode [b] ++ utf8Decode (y0 :: yr)
          rw [utf8Decode_cc, utf8Decode_one]
          simp [asciiOrRepl, hb]
        · rw [utf8Decode_one] at h
          simp [asciiOrRepl, hb] at h
  | b :: b2 :: rest2, y, h => by
      rw [utf8Decode_cc] at h
      by_cases hb : b < 0x80
      · simp only [hb, if_true, List.mem_cons, not_or] at h
        simp only [List.cons_append]
        rw [utf8Decode_cc b b2 (rest2 ++ y), utf8Decode_cc b b2 rest2]
        simp only [hb, if_true, List.cons_append, List.cons.injEq, true_and]
        exact utf8Decode_append (b2 :: rest2) y h.2
      by_cases hc2 : 0xC2 ≤ b ∧ b ≤ 0xDF
      · by_cases hcont : isCont b2 = true
        · simp only [hb, if_false, hc2, hcont, and_self, decide_eq_true_eq, Bool.and_eq_true,
            decide_eq_true_eq, if_true, List.mem_cons, not_or] at h
          have h' : ¬ replChar ∈ utf8Decode rest2 := by tauto
          simp only [List.cons_append]
          rw [utf8Decode_cc b b2 (rest2 ++ y), utf8Decode_cc b b2 rest2]
          simp [hb, hc2, hcont]
          exact utf8Decode_append rest2 y h'
        · simp [hb, hc2, hcont] at h
      by_cases hc3 : 0xE0 ≤ b ∧ b ≤ 0xEF
      · by_cases hok : cont3ok b b2 = true
        · cases rest2 with
          | nil => simp [hb, hc2, hc3, hok] at h
          | cons b3 rest3 =>
            by_cases hcont : isCont b3 = true
            · simp only [hb, hc2, hc3, hok, hcont, and_self, Bool.and_eq_true,
                decide_eq_true_eq, if_true, if_false, List.mem_cons, not_or] at h
              have h' : ¬ replChar ∈ utf8Decode rest3 := by tauto
              simp only [List.cons_append]
              rw [utf8Decode_cc b b2 (b3 :: (rest3 ++ y)), utf8Decode_cc b b2 (b3 :: rest3)]
              simp [hb, hc2, hc3, hok, hcont]
              exact utf8Decode_append rest3 y h'
            · simp [hb, hc2, hc3, hok, hcont] at h
        · simp [hb, hc2, hc3, hok] at h
      by_cases hc4 : 0xF0 ≤ b ∧ b ≤ 0xF4
      · by_cases hok : cont4ok b b2 = true
        · cases rest2 with
          | nil => simp [hb, hc2, hc3, hc4, hok] at h
          | cons b3 rest3 =>
            by_cases hcont3 : isCont b3 = true
            · cases rest3 with
              | nil => simp [hb, hc2, hc3, hc4, hok, hcont3] at h
              | cons b4 rest4 =>
                by_cases hcont4 : isCont b4 = true
                · simp only [hb, hc2, hc3, hc4, hok, hcont3, hcont4, and_self,
                    Bool.and_eq_true, decide_eq_true_eq, if_true, if_false,
                    List.mem_cons, not_or] at h
                  have h' : ¬ replChar ∈ utf8Decode rest4 := by tauto
                  simp only [List.cons_append]
                  rw [utf8Decode_cc b b2 (b3 :: b4 :: (rest4 ++ y)),
                    utf8Decode_cc b b2 (b3 :: b4 :: rest4)]
                  simp [hb, hc2, hc3, hc4, hok, hcont3, hcont4]
                  exact utf8Decode_append rest4 y h'
                · simp [hb, hc2, hc3, hc4, hok, hcont3, hcont4] at h
            · simp [hb, hc2, hc3, hc4, hok, hcont3] at h
        · simp [hb, hc2, hc3, hc4, hok] at h
      · simp [hb, hc2, hc3, hc4] at h
termination_by a _ _ => a.length
decreasing_by all_goals (first | (simp_all; omega) | simp_all | omega)

/-- A concatenation of cleanly decoding chunks decodes cleanly, piecewise. -/
theorem utf8Decode_flatten : (cs : List (List Nat)) →
    (∀ c ∈ cs, ¬ replChar ∈ utf8Decode c) →
    utf8Decode cs.flatten = (cs.map utf8Decode).flatten ∧
      ¬ replChar ∈ utf8Decode cs.flatten
  | [], _ => by simp [utf8Decode]
  | c :: cs, h => by
      have hc := h c (List.mem_cons_self c cs)
      have ih := utf8Decode_flatten cs (fun x hx => h x (List.mem_cons_of_mem c hx))
      constructor
      · simp only [List.flatten_cons, List.map_cons]
        rw [utf8Decode_append c cs.flatten hc, ih.1]
      · simp only [List.flatten_cons]
        rw [utf8Decode_append c cs.flatten hc]
        simp only [List.mem_append, not_or]
        exact ⟨hc, ih.2⟩

theorem hasRepl_false_iff (l : List Nat) :
    hasRepl l = false ↔ ¬ replChar ∈ utf8Decode l := by
  simp [hasRepl]

/-- Clean chunks never populate `temp`: the fold over chunks is the SSE
parser fed with the decode of the concatenation. -/
theorem feedChunk_foldl_clean : (cs : List (List Nat)) → (p : PState) →
    (∀ c ∈ cs, hasRepl c = false) →
    cs.foldl feedChunk ⟨[], p⟩ = ⟨[], sseFeed p (utf8Decode cs.flatten)⟩
  | [], p, _ => by simp [utf8Decode, sseFeed]
  | c :: cs, p, h => by
      have hc := h c (List.mem_cons_self c cs)
      have hc' : ¬ replChar ∈ utf8Decode c := (hasRepl_false_iff c).mp hc
      have hrest : ∀ x ∈ cs, hasRepl x = false :=
        fun x hx => h x (List.mem_cons_of_mem c hx)
      have hrest' : ∀ x ∈ cs, ¬ replChar ∈ utf8Decode x :=
        fun x hx => (hasRepl_false_iff x).mp (hrest x hx)
      simp only [List.foldl_cons, feedChunk, hc, Bool.false_eq_true, if_false,
        List.nil_append]
      rw [feedChunk_foldl_clean cs (sseFeed p (utf8Decode c)) hrest]
      simp only [List.flatten_cons]
      rw [utf8Decode_append c cs.flatten hc']
      simp [sseFeed, List.foldl_append]

/-- Event-sequence invariance: clean chunking delivers the same events as
the unsplit stream. -/
theorem chunksToEvents_clean (cs : List (List Nat))
    (h : ∀ c ∈ cs, hasRepl c = false) :
    chunksToEvents cs = chunksToEvents [cs.flatten] := by
  have h' : ∀ c ∈ cs, ¬ replChar ∈ utf8Decode c :=
    fun c hc => (hasRepl_false_iff c).mp (h c hc)
  have hflat : hasRepl cs.flatten = false :=
    (hasRepl_false_iff cs.flatten).mpr (utf8Decode_flatten cs h').2
  unfold chunksToEvents initFeed
  rw [feedChunk_foldl_clean cs initPState h]
  simp [feedChunk, hflat]

/-! ## Terminal-event uniqueness machinery (C1) -/

theorem settleIfNone_mono (st : BufState) (x : Except ApiErr Answer)
    (r : Except ApiErr Answer) (h : st.settled = some r) :
    (settleIfNone st x).settled = some r := by
  simp [settleIfNone, h]

theorem bufApplyConv_settled (st : BufState) (convId : Option Str) :
    (bufApplyConv st convId).settled = st.settled := by
  cases convId with
  | none => rfl
  | some cid =>
    simp only [bufApplyConv]
    split <;> rfl

theorem bufApplyMsg_settled_mono (st : BufState) (m : Option (Except Unit Str))
    (r : Except ApiErr Answer) (h : st.settled = some r) :
    (bufApplyMsg st m).settled = some r := by
  cases m with
  | none => exact h
  | some e =>
    cases e with
    | error u => exact settleIfNone_mono _ _ _ h
    | ok t =>
      simp only [bufApplyMsg]
      split
      · exact h
      · simp [h]

theorem bufFinish_settled_mono (st : BufState) (r : Except ApiErr Answer)
    (h : st.settled = some r) : (bufFinish st).settled = some r := by
  unfold bufFinish
  exact settleIfNone_mono _ _ _ h

/-- A settled promise never changes: every later `resolve`/`reject` in the
buffered callback is a no-op. -/
theorem bufStep_settled_mono (st : BufState) (ev : Str) (r : Except ApiErr Answer)
    (h : st.settled = some r) : (bufStep st ev).settled = some r := by
  unfold bufStep
  by_cases hend : st.isEnd
  · simp [hend, h]
  · simp only [hend, Bool.false_eq_true, if_false]
    cases hp : parseFrame ev with
    | badParse => exact settleIfNone_mono _ _ _ h
    | badCode => exact settleIfNone_mono _ _ _ h
    | finish2003 => exact bufFinish_settled_mono _ _ h
    | skip => exact h
    | f2001 convId isFin msgPart =>
      cases isFin with
      | true => exact bufFinish_settled_mono _ _ h
      | false =>
        exact bufApplyMsg_settled_mono _ _ _ ((bufApplyConv_settled st convId).trans h)

theorem bufFold_settled_mono (st : BufState) (events : List Str) (r : Except ApiErr Answer)
    (h : st.settled = some r) : (events.foldl bufStep st).settled = some r := by
  induction events generalizing st with
  | nil => exact h
  | cons e es ih => exact ih (bufStep st e) (bufStep_settled_mono st e r h)

/-- The first settled outcome is the surfaced result, whatever arrives
afterwards. -/
theorem runBuffered_first_settle (events extra : List Str) (r : Except ApiErr Answer)
    (h : (events.foldl bufStep initBuf).settled = some r) :
    runBufferedEvents (events ++ extra) = r := by
  have h2 := bufFold_settled_mono (events.foldl bufStep initBuf) extra r h
  simp only [runBufferedEvents, List.foldl_append]
  rw [h2]

/-- Chunks that surface a terminal condition on the live stream. -/
def isTermChunk (c : TChunk) : Bool :=
  match c with
  | .chunk _ _ (some _) => true
  | .done => true
  | .errEnd => true
  | _ => false

def cleanOut (l : List TChunk) : Bool := l.all (fun c => !isTermChunk c)

def countStops (l : List TChunk) : Nat :=
  l.countP (fun c => match c with | .chunk _ _ (some f) => f == stopStr | _ => false)

def countDones (l : List TChunk) : Nat := l.countP (fun c => c == TChunk.done)

/-- Frames whose processing throws in the live callback. -/
def evIsError (ev : Str) : Bool :=
  match parseFrame ev with
  | .badParse => true
  | .badCode => true
  | .f2001 _ _ (some (.error _)) => true
  | _ => false

/-- Frames that close the logical stream (stream-closed event type or an
`is_finish` payload). -/
def evIsTerminal (ev : Str) : Bool :=
  match parseFrame ev with
  | .finish2003 => true
  | .f2001 _ true _ => true
  | _ => false

theorem twrite_ended (st : TState) (c : TChunk) (h : st.ended = true) :
    twrite st c = st := by simp [twrite, h]

theorem tendWith_ended (st : TState) (c : TChunk) (h : st.ended = true) :
    tendWith st c = st := by simp [tendWith, h]

theorem transConv_out_ended (st : TState) (convId : Option Str) :
    (transConv st convId).out = st.out ∧ (transConv st convId).ended = st.ended := by
  unfold transConv; split <;> simp

theorem transFinish_ended (st : TState) (h : st.ended = true) :
    transFinish st = st := by
  unfold transFinish
  rw [twrite_ended st _ h, tendWith_ended st _ h]

theorem transMsg_ended (st : TState) (m : Option (Except Unit Str)) (h : st.ended = true) :
    transMsg st m = st := by
  cases m with
  | none => rfl
  | some e =>
    cases e with
    | error u =>
      simp only [transMsg]
      exact tendWith_ended st _ h
    | ok t =>
      simp only [transMsg]
      split
      · rfl
      · exact twrite_ended st _ h

/-- Once the live stream has ended, no callback delivers further output
(only `convId` may still change). -/
theorem transStep_ended (st : TState) (ev : Str) (h : st.ended = true) :
    (transStep st ev).out = st.out ∧ (transStep st ev).ended = true := by
  unfold transStep
  cases hp : parseFrame ev with
  | badParse => rw [tendWith_ended st _ h]; exact ⟨rfl, h⟩
  | badCode => rw [tendWith_ended st _ h]; exact ⟨rfl, h⟩
  | finish2003 => rw [transFinish_ended st h]; exact ⟨rfl, h⟩
  | skip => exact ⟨rfl, h⟩
  | f2001 convId isFin msgPart =>
    have hc := transConv_out_ended st convId
    have hce : (transConv st convId).ended = true := hc.2.trans h
    cases isFin with
    | true =>
      simp only [if_true]
      rw [transFinish_ended _ hce]
      exact ⟨hc.1, hce⟩
    | false =>
      simp only [Bool.false_eq_true, if_false]
      rw [transMsg_ended _ _ hce]
      exact ⟨hc.1, hce⟩

theorem transFold_ended (st : TState) (events : List Str) (h : st.ended = true) :
    ((events.foldl transStep st)).out = st.out ∧ (events.foldl transStep st).ended = true := by
  induction events generalizing st with
  | nil => exact ⟨rfl, h⟩
  | cons e es ih =>
    have h1 := transStep_ended st e h
    have h2 := ih (transStep st e) h1.2
    exact ⟨h2.1.trans h1.1, h2.2⟩

/-- On an open stream, `transFinish` appends exactly the stop chunk and the
`[DONE]` marker and ends the stream. -/
theorem transFinish_open (st : TState) (hend : st.ended = false) :
    (transFinish st).out = st.out ++ [.chunk st.convId [] (some stopStr), .done] ∧
      (transFinish st).ended = true := by
  unfold transFinish twrite tendWith
  simp [hend]

/-- A terminal frame processed on an open stream emits exactly the stop
chunk and the `[DONE]` marker. -/
theorem transStep_terminal (st : TState) (ev : Str) (hend : st.ended = false)
    (ht : evIsTerminal ev = true) :
    ∃ cid, (transStep st ev).out = st.out ++ [.chunk cid [] (some stopStr), .done] ∧
      (transStep st ev).ended = true := by
  unfold transStep
  unfold evIsTerminal at ht
  cases hp : parseFrame ev with
  | badParse => rw [hp] at ht; cases ht
  | badCode => rw [hp] at ht; cases ht
  | finish2003 => exact ⟨st.convId, transFinish_open st hend⟩
  | skip => rw [hp] at ht; cases ht
  | f2001 convId isFin msgPart =>
    rw [hp] at ht
    cases isFin with
    | false => cases ht
    | true =>
      have hc := transConv_out_ended st convId
      have hce : (transConv st convId).ended = false := hc.2.trans hend
      have := transFinish_open (transConv st convId) hce
      exact ⟨(transConv st convId).convId, by
        simp only [if_true]
        rw [this.1, hc.1]
        exact ⟨rfl, this.2⟩⟩

theorem twrite_open (st : TState) (c : TChunk) (hend : st.ended = false) :
    (twrite st c).out = st.out ++ [c] ∧ (twrite st c).ended = false := by
  simp [twrite, hend]

/-- A non-terminal, non-error frame keeps the stream open and the output
clean. -/
theorem transStep_benign (st : TState) (ev : Str) (hend : st.ended = false)
    (he : evIsError ev = false) (ht : evIsTerminal ev = false) :
    (transStep st ev).ended = false ∧
    (cleanOut st.out = true → cleanOut (transStep st ev).out = true) := by
  unfold transStep
  unfold evIsError at he
  unfold evIsTerminal at ht
  cases hp : parseFrame ev with
  | badParse => rw [hp] at he; cases he
  | badCode => rw [hp] at he; cases he
  | finish2003 => rw [hp] at ht; cases ht
  | skip => exact ⟨hend, fun hc => hc⟩
  | f2001 convId isFin msgPart =>
    rw [hp] at he ht
    cases isFin with
    | true => cases ht
    | false =>
      simp only [Bool.false_eq_true, if_false]
      have hc := transConv_out_ended st convId
      have hce : (transConv st convId).ended = false := hc.2.trans hend
      cases msgPart with
      | none => exact ⟨hce, fun h => by rw [transMsg, hc.1]; exact h⟩
      | some e =>
        cases e with
        | error u => cases he
        | ok t =>
          simp only [transMsg]
          split
          · exact ⟨hce, fun h => by rw [hc.1]; exact h⟩
          · have hw := twrite_open (transConv st convId) (.chunk (transConv st convId).convId t none) hce
            refine ⟨hw.2, fun h => ?_⟩
            rw [hw.1, hc.1]
            simpa [cleanOut, List.all_append, isTermChunk] using h

/-- An error frame on an open stream (not also terminal) ends the stream
with a bare separator. -/
theorem transStep_error (st : TState) (ev : Str) (hend : st.ended = false)
    (he : evIsError ev = true) (ht : evIsTerminal ev = false) :
    (transStep st ev).out = st.out ++ [.errEnd] ∧ (transStep st ev).ended = true := by
  unfold transStep
  unfold evIsError at he
  unfold evIsTerminal at ht
  cases hp : parseFrame ev with
  | badParse => simp [tendWith, hend]
  | badCode => simp [tendWith, hend]
  | finish2003 => rw [hp] at ht; cases ht
  | skip => rw [hp] at he; cases he
  | f2001 convId isFin msgPart =>
    rw [hp] at he ht
    cases isFin with
    | true => cases ht
    | false =>
      cases msgPart with
      | none => cases he
      | some e =>
        cases e with
        | ok t => cases he
        | error u =>
          have hc := transConv_out_ended st convId
          have hce : (transConv st convId).ended = false := hc.2.trans hend
          simp only [Bool.false_eq_true, if_false, transMsg]
          constructor
          · simp [tendWith, hce, hc.1]
          · simp [tendWith, hce]

/-- The overall shape of the live output for any event sequence: a clean
delta part followed by exactly one closing form. -/
def terminalShape (l : List TChunk) : Prop :=
  ∃ p, cleanOut p = true ∧
    ((∃ cid, l = p ++ [.chunk cid [] (some stopStr), .done]) ∨
      l = p ++ [.done] ∨ l = p ++ [.errEnd])

theorem transFold_shape : (events : List Str) → ∀ st : TState,
    st.ended = false → cleanOut st.out = true →
    terminalShape (transClose (events.foldl transStep st)).out
  | [], st, hend, hclean => by
      refine ⟨st.out, hclean, Or.inr (Or.inl ?_)⟩
      simp [transClose, tendWith, hend]
  | e :: es, st, hend, hclean => by
      by_cases ht : evIsTerminal e = true
      · obtain ⟨cid, hout, hended⟩ := transStep_terminal st e hend ht
        have hfold := transFold_ended (transStep st e) es hended
        refine ⟨st.out, hclean, Or.inl ⟨cid, ?_⟩⟩
        simp only [List.foldl_cons, transClose]
        rw [tendWith_ended _ _ hfold.2, hfold.1, hout]
      · by_cases he : evIsError e = true
        · obtain ⟨hout, hended⟩ := transStep_error st e hend he (by simpa using ht)
          have hfold := transFold_ended (transStep st e) es hended
          refine ⟨st.out, hclean, Or.inr (Or.inr ?_)⟩
          simp only [List.foldl_cons, transClose]
          rw [tendWith_ended _ _ hfold.2, hfold.1, hout]
        · have hb := transStep_benign st e hend (by simpa using he) (by simpa using ht)
          simp only [List.foldl_cons]
          exact transFold_shape es (transStep st e) hb.1 (hb.2 hclean)

/-- With only well-formed frames and at least one terminal frame, the live
output is a clean delta part followed by exactly the stop chunk and the
`[DONE]` marker. -/
theorem transFold_terminal : (events : List Str) → ∀ st : TState,
    st.ended = false → cleanOut st.out = true →
    (∀ ev ∈ events, evIsError ev = false) →
    (∃ ev ∈ events, evIsTerminal ev = true) →
    ∃ p cid, cleanOut p = true ∧
      (transClose (events.foldl transStep st)).out =
        p ++ [.chunk cid [] (some stopStr), .done]
  | [], st, _, _, _, hex => by simp at hex
  | e :: es, st, hend, hclean, herr, hex => by
      by_cases ht : evIsTerminal e = true
      · obtain ⟨cid, hout, hended⟩ := transStep_terminal st e hend ht
        have hfold := transFold_ended (transStep st e) es hended
        refine ⟨st.out, cid, hclean, ?_⟩
        simp only [List.foldl_cons, transClose]
        rw [tendWith_ended _ _ hfold.2, hfold.1, hout]
      · have hb := transStep_benign st e hend (herr e (List.mem_cons_self e es))
          (by simpa using ht)
        have hex' : ∃ ev ∈ es, evIsTerminal ev = true := by
          obtain ⟨ev, hmem, hterm⟩ := hex
          cases List.mem_cons.mp hmem with
          | inl heq => rw [heq] at hterm; exact absurd hterm ht
          | inr h2 => exact ⟨ev, h2, hterm⟩
        simp only [List.foldl_cons]
        exact transFold_terminal es (transStep st e) hb.1 (hb.2 hclean)
          (fun ev hm => herr ev (List.mem_cons_of_mem e hm)) hex'

theorem cleanOut_counts (p : List TChunk) (h : cleanOut p = true) :
    countStops p = 0 ∧ countDones p = 0 := by
  have hall : ∀ c ∈ p, isTermChunk c = false := by
    intro c hc
    have := (List.all_eq_true.mp h) c hc
    simpa using this
  constructor
  · refine List.countP_eq_zero.mpr (fun c hc => ?_)
    have := hall c hc
    cases c with
    | chunk i t f =>
      cases f with
      | none => simp
      | some v => simp [isTermChunk] at this
    | done => simp [isTermChunk] at this
    | errEnd => simp [isTermChunk] at this
  · refine List.countP_eq_zero.mpr (fun c hc => ?_)
    have := hall c hc
    cases c with
    | chunk i t f => simp
    | done => simp [isTermChunk] at this
    | errEnd => simp [isTermChunk] at this

theorem terminalShape_counts (l : List TChunk) (h : terminalShape l) :
    countStops l ≤ 1 ∧ countDones l ≤ 1 := by
  obtain ⟨p, hclean, hcase⟩ := h
  have hp := cleanOut_counts p hclean
  rcases hcase with ⟨cid, rfl⟩ | rfl | rfl
  · constructor
    · have e : countStops (p ++ [TChunk.chunk cid [] (some stopStr), TChunk.done]) =
          countStops p + 1 := by
        simp [countStops, List.countP_append, List.countP_cons]
      rw [e, hp.1]
    · have e : countDones (p ++ [TChunk.chunk cid [] (some stopStr), TChunk.done]) =
          countDones p + 1 := by
        simp [countDones, List.countP_append, List.countP_cons]
      rw [e, hp.2]
  · constructor
    · have e : countStops (p ++ [TChunk.done]) = countStops p := by
        simp [countStops, List.countP_append, List.countP_cons]
      rw [e, hp.1]; omega
    · have e : countDones (p ++ [TChunk.done]) = countDones p + 1 := by
        simp [countDones, List.countP_append, List.countP_cons]
      rw [e, hp.2]
  · constructor
    · have e : countStops (p ++ [TChunk.errEnd]) = countStops p := by
        simp [countStops, List.countP_append, List.countP_cons]
      rw [e, hp.1]; omega
    · have e : countDones (p ++ [TChunk.errEnd]) = countDones p := by
        simp [countDones, List.countP_append, List.countP_cons]
      rw [e, hp.2]; omega

/-! ## Claim C1 -/

/-- **C1** (confirmed).  Exactly one terminal event is surfaced per logical
request even when the upstream delivers several stream-closed (2003) or
`is_finish` frames.  Buffered mode: a settled outcome is frozen — whatever
frames arrive afterwards, the promise result is the first settlement (and
the close handler settles if nothing else did, so the run always yields
exactly one outcome).  Live mode: for any event sequence the output holds
at most one `finish_reason:"stop"` chunk and at most one `[DONE]` marker,
and when the (well-formed) sequence contains at least one terminal frame,
the output is clean deltas followed by exactly one stop chunk immediately
followed by exactly one `[DONE]`. -/
theorem c1_exactly_one_terminal (events extra : List Str) (r : Except ApiErr Answer) :
    ((events.foldl bufStep initBuf).settled = some r →
      runBufferedEvents (events ++ extra) = r) ∧
    (countStops (runLiveOut events) ≤ 1 ∧ countDones (runLiveOut events) ≤ 1) ∧
    ((∀ ev ∈ events, evIsError ev = false) → (∃ ev ∈ events, evIsTerminal ev = true) →
      ∃ p cid, cleanOut p = true ∧
        runLiveOut events = p ++ [.chunk cid [] (some stopStr), .done]) := by
  refine ⟨fun h => runBuffered_first_settle events extra r h, ?_, ?_⟩
  · exact terminalShape_counts _ (transFold_shape events initTState rfl (by decide))
  · intro herr hterm
    exact transFold_terminal events initTState rfl (by decide) herr hterm

/-- A bare stream-closed frame. -/
def ev2003 : Str := lb ++ strOf "\"event_type\":2003" ++ rb

/-- Witness for C1 at a stream that closes twice: the buffered result is
the first resolution, and the live output carries exactly one stop chunk
and one `[DONE]`. -/
theorem c1_exactly_one_terminal_witness :
    runBufferedEvents [ev2003, ev2003] = .ok ⟨[], []⟩ ∧
    countStops (runLiveOut [ev2003, ev2003]) ≤ 1 ∧
    countDones (runLiveOut [ev2003, ev2003]) ≤ 1 ∧
    (∃ p cid, cleanOut p = true ∧
      runLiveOut [ev2003, ev2003] = p ++ [.chunk cid [] (some stopStr), .done]) :=
  ⟨(c1_exactly_one_terminal [ev2003] [ev2003] (.ok ⟨[], []⟩)).1 (by decide),
   ((c1_exactly_one_terminal [ev2003, ev2003] [] (.ok ⟨[], []⟩)).2.1).1,
   ((c1_exactly_one_terminal [ev2003, ev2003] [] (.ok ⟨[], []⟩)).2.1).2,
   (c1_exactly_one_terminal [ev2003, ev2003] [] (.ok ⟨[], []⟩)).2.2 (by decide) (by decide)⟩

/-! ## Claim C2 -/

/-- **C2** (amended).  Split-invariance of the transcoder holds for every
chunking in which each chunk decodes without a replacement character — in
particular whenever the chunk boundaries fall on UTF-8 character
boundaries: the buffered answer and the live output both equal those of
the unsplit stream.  (As originally stated — for arbitrary offsets,
including mid-character — the claim is false: see
`c2_split_invariance_counterexample`.) -/
theorem c2_split_invariance (chunks : List (List Nat))
    (h : ∀ c ∈ chunks, hasRepl c = false) :
    receiveStreamRun chunks = receiveStreamRun [chunks.flatten] ∧
    createTransRun chunks = createTransRun [chunks.flatten] := by
  have hev := chunksToEvents_clean chunks h
  constructor
  · unfold receiveStreamRun
    rw [hev]
  · unfold createTransRun
    rw [hev]

/-- A frame whose delta text is the two-byte character `é`. -/
def frameInnerE : Str :=
  lb ++ strOf "\"event_type\":2001,\"event_data\":\"" ++
    (lb ++ strOf "\\\"message\\\":" ++ lb ++ strOf "\\\"content\\\":\\\"é\\\"" ++ rb ++ rb) ++
    strOf "\"" ++ rb

def bytesE : List Nat := strBytes (strOf "data: " ++ frameInnerE ++ strOf "\n\n")

/-- Split index right after the lead byte 0xC3 of `é`. -/
def bytesEcut : Nat := (bytesE.takeWhile (fun b => b ≠ 0xC3)).length + 1

def bytesEa : List Nat := bytesE.take bytesEcut

def bytesEb : List Nat := bytesE.drop bytesEcut

/-- **C2 counterexample**: splitting the same byte sequence in the middle
of the multi-byte character makes both halves decode with U+FFFD, so both
are withheld in `temp` and never flushed before close — the accumulated
text is empty instead of `é`. -/
theorem c2_split_invariance_counterexample :
    bytesEa ++ bytesEb = bytesE ∧
    receiveStreamRun [bytesE] = .ok ⟨[], strOf "é"⟩ ∧
    receiveStreamRun [bytesEa, bytesEb] = .ok ⟨[], []⟩ ∧
    receiveStreamRun [bytesEa, bytesEb] ≠ receiveStreamRun [bytesE] := by
  refine ⟨by decide, by decide, by decide, by decide⟩

/-- Witness for the amended C2 at a mid-frame (but character-aligned)
split of a concrete event stream. -/
theorem c2_split_invariance_witness :
    (∀ c ∈ [frameBytes1.take 10, frameBytes1.drop 10], hasRepl c = false) ∧
    receiveStreamRun [frameBytes1.take 10, frameBytes1.drop 10] =
      receiveStreamRun [([frameBytes1.take 10, frameBytes1.drop 10] : List (List Nat)).flatten] ∧
    createTransRun [frameBytes1.take 10, frameBytes1.drop 10] =
      createTransRun [([frameBytes1.take 10, frameBytes1.drop 10] : List (List Nat)).flatten] :=
  ⟨by decide,
   (c2_split_invariance [frameBytes1.take 10, frameBytes1.drop 10] (by decide)).1,
   (c2_split_invariance [frameBytes1.take 10, frameBytes1.drop 10] (by decide)).2⟩

/-! ## Message packer (`messagesPrepare`) -/

inductive Role where
  | system
  | user
  | assistant
deriving DecidableEq

/-- The chained `role.replace("system", …).replace("assistant", …)
.replace("user", …)` tagging. -/
def roleTag : Role → Str
  | .system => strOf "<|im_start|>system"
  | .user => strOf "<|im_start|>user"
  | .assistant => strOf "<|im_start|>assistant"

/-- One element of an array-valued `message.content`, discriminated by its
`type` field as the source checks it. -/
inductive CPart where
  | ptext (t : Str)
  | pimage (url : Str)
  | pinputImage (url : Str)
  | pimageAlt (url : Str)
  | pfile (url : Str)
  | praw (s : Str)
  | pother
deriving DecidableEq

inductive MsgContent where
  | mstr (s : Str)
  | mparts (ps : List CPart)
deriving DecidableEq

structure Msg where
  role : Role
  content : MsgContent
deriving DecidableEq

/-- The synthetic system message spliced in before a trailing
file/image-bearing message. -/
def sysFileMsg : Msg := ⟨.system, .mstr (strOf "关注用户最新发送文件和消息")⟩

/-- `["file", "image_url"].includes(v["type"])` over an object part. -/
def partIsFileOrImage : CPart → Bool
  | .pfile _ => true
  | .pimage _ => true
  | _ => false

def msgHasFileOrImage (m : Msg) : Bool :=
  match m.content with
  | .mparts ps => ps.any partIsFileOrImage
  | _ => false

/-- The verbatim flattening used for reference conversations and
single-message histories: text parts (or the whole string content), each
followed by a newline, no role tags. -/
def flattenVerbatim (msgs : List Msg) : Str :=
  msgs.foldl (fun content m =>
    match m.content with
    | .mparts ps => ps.foldl (fun c p =>
        match p with
        | .ptext t => c ++ t ++ strOf "\n"
        | _ => c) content
    | .mstr s => content ++ s ++ strOf "\n") []

/-- Base64 alphabet (including padding) as used by the cleaning regexes. -/
def isB64Char (c : Char) : Bool :=
  ('A' ≤ c && c ≤ 'Z') || ('a' ≤ c && c ≤ 'z') || isDigitC c ||
    c == '+' || c == '/' || c == '='

/-- Modelled from the spec: `util.isBASE64` (lib/util.ts is not in src/) —
a non-empty string over the base64 alphabet. -/
def isBASE64 (s : Str) : Bool := !s.isEmpty && s.all isB64Char

/-- Modelled from the spec: `util.isBASE64Data` — a `data:…;base64,…` URI. -/
def isBASE64Data (s : Str) : Bool :=
  strStarts (strOf "data:") s && strContains (strOf ";base64,") s

/-- Global regex replacement by the empty string: at each position, either
remove a leftmost match (continuing after it) or keep the character.
`matchAt` reports a positive match length at the present position. -/
def replaceScanF (matchAt : Str → Option Nat) : Nat → Str → Str
  | 0, s => s
  | _, [] => []
  | fuel + 1, c :: cs =>
    match matchAt (c :: cs) with
    | some (n + 1) => replaceScanF matchAt fuel (cs.drop n)
    | _ => c :: replaceScanF matchAt fuel cs

def replaceScan (matchAt : Str → Option Nat) (s : Str) : Str :=
  replaceScanF matchAt s.length s

/-- Matcher for `/data:[^;]+;base64,[A-Za-z0-9+\/=]+/`: `[^;]+` is a
maximal non-semicolon run, so the match requires `;base64,` right after
it and at least one base64 character. -/
def dataUriMatchAt (s : Str) : Option Nat :=
  if strStarts (strOf "data:") s then
    let rest := s.drop 5
    let mimeLen := (rest.takeWhile (fun c => c ≠ ';')).length
    if mimeLen = 0 then none
    else
      let rest2 := rest.drop mimeLen
      if strStarts (strOf ";base64,") rest2 then
        let bodyLen := ((rest2.drop 8).takeWhile isB64Char).length
        if bodyLen = 0 then none else some (5 + mimeLen + 8 + bodyLen)
      else none
  else none

/-- Matcher for `/[A-Za-z0-9+\/=]{500,}/` (greedy maximal run). -/
def longB64MatchAt (s : Str) : Option Nat :=
  let run := (s.takeWhile isB64Char).length
  if 500 ≤ run then some run else none

/-- Greedy tail of the markdown-image regex: `.+\)` matches up to the last
`)` with at least one character before it. -/
def mdTail (seg : Str) : Option Nat :=
  let qs := (List.range seg.length).filter
    (fun q => decide (1 ≤ q) && ((seg.drop q).head? == some ')'))
  qs.getLast?.map (fun q => q + 1)

/-- Matcher for `/\!\[.+\]\(.+\)/` (greedy, `.` stops at newlines):
backtracking tries the `](` separators right-to-left. -/
def mdImageMatchAt (s : Str) : Option Nat :=
  if strStarts (strOf "![") s then
    let line := (s.drop 2).takeWhile (fun c => c ≠ '\n')
    let ps := (List.range line.length).filter
      (fun p => decide (1 ≤ p) && strStarts (strOf "](") (line.drop p))
    (ps.reverse.filterMap
      (fun p => (mdTail (line.drop (p + 2))).map (fun t => 2 + p + 2 + t))).head?
  else none

/-- Matcher for `/\/mnt\/data\/.+/`. -/
def mntMatchAt (s : Str) : Option Nat :=
  if strStarts (strOf "/mnt/data/") s then
    let t := ((s.drop 10).takeWhile (fun c => c ≠ '\n')).length
    if 1 ≤ t then some (10 + t) else none
  else none

/-- `cleanTextContent` from the merged-history branch: strip data URIs,
strip 500+ base64 runs, drop bare base64 lines longer than 300. -/
def cleanTextContent (text : Str) : Str :=
  if text.isEmpty then [] else
  let t := replaceScan dataUriMatchAt text
  let t := replaceScan longB64MatchAt t
  joinWith (strOf "\n") ((splitLines t).filter (fun line =>
    let tr := strTrim line
    !(decide (300 < tr.length) && isBASE64 tr)))

/-- The role-tagged merge of the multi-message branch, with the
markdown-image and `/mnt/data/` removals applied afterwards. -/
def mergeRoleTagged (msgs : List Msg) : Str :=
  let raw := msgs.foldl (fun content m =>
    let role := roleTag m.role
    match m.content with
    | .mparts ps => ps.foldl (fun c p =>
        match p with
        | .ptext t => c ++ role ++ strOf "\n" ++ cleanTextContent t ++ strOf "\n"
        | _ => c) content
    | .mstr s =>
        content ++ role ++ strOf "\n" ++ cleanTextContent s ++ strOf "\n" ++
          strOf "<|im_end|>\n") []
  replaceScan mntMatchAt (replaceScan mdImageMatchAt raw)

/-- Header matcher for the `cleanBase64` exec loop:
`/data:[^;]+;base64,/`. -/
def dataUriHeaderAt (s : Str) : Option Nat :=
  if strStarts (strOf "data:") s then
    let rest := s.drop 5
    let mimeLen := (rest.takeWhile (fun c => c ≠ ';')).length
    if mimeLen = 0 then none
    else if strStarts (strOf ";base64,") (rest.drop mimeLen) then
      some (5 + mimeLen + 8)
    else none
  else none

/-- The `cleanBase64` exec loop: delete each `data:…;base64,` header plus
the following base64 run (possibly empty), re-scanning from the deletion
point. -/
def cleanB64ScanF : Nat → Str → Str
  | 0, s => s
  | _, [] => []
  | fuel + 1, c :: cs =>
    match dataUriHeaderAt (c :: cs) with
    | some hlen =>
        let rest := (c :: cs).drop hlen
        cleanB64ScanF fuel (rest.drop (rest.takeWhile isB64Char).length)
    | none => c :: cleanB64ScanF fuel cs

/-- Drop lines longer than 200 characters in which more than 90% of the
characters are base64 alphabet (the float comparison
`base64Chars > trimmed.length * 0.9` modelled exactly as the rational
inequality). -/
def dropB64Lines (t : Str) : Str :=
  joinWith (strOf "\n") ((splitLines t).filter (fun line =>
    let tr := strTrim line
    !(decide (200 < tr.length) &&
      decide (9 * tr.length < 10 * (tr.filter isB64Char).length))))

/-- `cleanBase64` — the reinforced cleaner applied to the final content. -/
def cleanBase64 (text : Str) : Str :=
  if text.isEmpty then [] else
  strTrim (dropB64Lines (cleanB64ScanF text.length text))

structure Ref where
  url : Str
  name : Str
  ext : Str
  width : Nat
  height : Nat
deriving DecidableEq

/-- `ref && (ref.width || ref.height)` — an absent dimension is modelled
as 0 (falsy). -/
def refIsImage (r : Ref) : Bool := decide (r.width ≠ 0) || decide (r.height ≠ 0)

/-- One `vlm_image` attachment entry (the per-entry `identifier` uuid and
the constant `type`/review-state fields are elided — no claim depends on
them). -/
structure Attachment where
  name : Str
  key : Str
  width : Nat
  height : Nat
deriving DecidableEq

def attachmentName (r : Ref) : Str :=
  if !r.name.isEmpty then r.name
  else
    let seg := (List.splitOn '/' r.url).getLastD []
    if !seg.isEmpty then seg
    else strOf "image." ++ (if r.ext.isEmpty then strOf "png" else r.ext)

def mkAttachment (r : Ref) : Attachment :=
  { name := attachmentName r
    key := r.url
    width := if r.width = 0 then 1 else r.width
    height := if r.height = 0 then 1 else r.height }

/-- The upstream payload entry built by `messagesPrepare` (its constant
fields `content_type: 2001` and `references: []` are elided; `text` is the
string embedded as `JSON.stringify({ text })`). -/
structure Payload where
  text : Str
  attachments : List Attachment
deriving DecidableEq

/-- `.filter(v => v && v.type === "text").map(v => v.text || "").join("\n")`. -/
def lastTextOf (m : Msg) : Str :=
  match m.content with
  | .mparts ps =>
      joinWith (strOf "\n") (ps.filterMap (fun p =>
        match p with
        | .ptext t => some t
        | _ => none))
  | .mstr s => s

/-- The in-place mutation `messagesPrepare` performs on its argument: in
the multi-message, non-reference branch, when the last message carries a
file or `image_url` part, the synthetic system message is spliced in at
index `length - 1`. -/
def packMutated (messages : List Msg) (isRefConv : Bool) : List Msg :=
  if isRefConv ∨ messages.length < 2 then messages
  else
    match messages.getLast? with
    | some last =>
        if msgHasFileOrImage last then
          messages.insertIdx (messages.length - 1) sysFileMsg
        else messages
    | none => messages

/-- The branch-dependent merged content (computed on the mutated array in
the multi-message branch). -/
def packContent (messages : List Msg) (isRefConv : Bool) : Str :=
  if isRefConv ∨ messages.length < 2 then flattenVerbatim messages
  else mergeRoleTagged (packMutated messages isRefConv)

/-- `refs.filter(Boolean)`, the `width || height` image split, and the
committed-key filter (regex anchor `^tos-cn-i-`). -/
def packImageRefs (refs : List (Option Ref)) : List Ref :=
  ((refs.filterMap id).filter refIsImage).filter
    (fun r => strStarts (strOf "tos-cn-i-") r.url)

/-- `messagesPrepare`: returns the payload and the (possibly mutated)
messages array — the source splices the synthetic system message into its
argument in place.  `fileRefs` only feeds a log line and is omitted. -/
def messagesPrepare (messages : List Msg) (refs : List (Option Ref)) (isRefConv : Bool) :
    Payload × List Msg :=
  let messagesOut := packMutated messages isRefConv
  let content := packContent messages isRefConv
  let attachments := (packImageRefs refs).map mkAttachment
  let lastText :=
    match messagesOut.getLast? with
    | some m => lastTextOf m
    | none => []
  let hasImages := !attachments.isEmpty
  let finalContent := if hasImages then cleanBase64 lastText else cleanBase64 content
  ({ text := finalContent, attachments := attachments }, messagesOut)

example :
    (messagesPrepare [⟨.user, .mparts [.ptext (strOf "hi")]⟩] [] false).1.text =
      strOf "hi" := by decide

example :
    (messagesPrepare
      [⟨.user, .mstr (strOf "a")⟩,
       ⟨.user, .mparts [.pimage (strOf "http://x/i.png"), .ptext (strOf "b")]⟩]
      [some ⟨strOf "tos-cn-i-abc/k", strOf "i.png", strOf "png", 2, 3⟩]
      false).1.text = strOf "b" := by decide

/-! ## Claims C6 and C7 -/

theorem insertIdx_take_drop {α : Type} (x : α) : ∀ (n : Nat) (l : List α), n ≤ l.length →
    l.insertIdx n x = l.take n ++ x :: l.drop n
  | 0, l, _ => by simp
  | n + 1, [], h => by simp at h
  | n + 1, a :: l, h => by
      rw [List.insertIdx_succ_cons]
      rw [insertIdx_take_drop x n l (by simpa using h)]
      simp

theorem getLast?_drop_lt {α : Type} : ∀ (l : List α) (n : Nat), n < l.length →
    (l.drop n).getLast? = l.getLast?
  | [], n, h => by simp at h
  | a :: l, 0, _ => rfl
  | a :: l, n + 1, h => by
      rw [List.drop_succ_cons, getLast?_drop_lt l n (by simpa using h)]
      cases l with
      | nil => simp at h
      | cons b t => rw [List.getLast?_cons_cons]

/-- The splice leaves the last message in place. -/
theorem packMutated_getLast? (msgs : List Msg) (isRefConv : Bool) :
    (packMutated msgs isRefConv).getLast? = msgs.getLast? := by
  unfold packMutated
  split
  · rfl
  · rename_i hcond
    have hlen : 2 ≤ msgs.length := by
      rcases Nat.lt_or_ge msgs.length 2 with h2 | h2
      · exact absurd (Or.inr h2) hcond
      · exact h2
    cases hl : msgs.getLast? with
    | none =>
      show msgs.getLast? = none
      exact hl
    | some last =>
      show (if msgHasFileOrImage last = true then
          msgs.insertIdx (msgs.length - 1) sysFileMsg else msgs).getLast? = some last
      by_cases hfi : msgHasFileOrImage last = true
      · rw [if_pos hfi]
        rw [insertIdx_take_drop sysFileMsg (msgs.length - 1) msgs (by omega)]
        cases hD : msgs.drop (msgs.length - 1) with
        | nil =>
          exfalso
          have := congrArg List.length hD
          simp only [List.length_drop, List.length_nil] at this
          omega
        | cons d ds =>
          rw [List.getLast?_append_of_ne_nil _ (by simp)]
          rw [List.getLast?_cons_cons, ← hD]
          rw [getLast?_drop_lt msgs (msgs.length - 1) (by omega)]
          exact hl
      · rw [if_neg hfi]
        exact hl

/-- **C6** (amended).  For a conversation whose last message carries an
image part, *and whose image upload succeeded* (an image asset reference
with a committed `tos-cn-i-` storage key is passed to the packer), the
payload text is exactly the last message's text parts joined by newlines,
with the base64/data-URI cleanup (and its whitespace trim) applied — the
earlier history is omitted.  As frozen, the claim is false: with no
successfully staged image reference the packer sends the full role-tagged
history even when the last message contains an image part (see the
counterexample). -/
theorem c6_vision_text_restriction (msgs : List Msg) (refs : List (Option Ref))
    (isRefConv : Bool) (last : Msg) (r : Ref)
    (hlast : msgs.getLast? = some last)
    (hlen : 2 ≤ msgs.length)
    (himg : msgHasFileOrImage last = true)
    (hr : some r ∈ refs) (hri : refIsImage r = true)
    (hrk : strStarts (strOf "tos-cn-i-") r.url = true) :
    (messagesPrepare msgs refs isRefConv).1.text = cleanBase64 (lastTextOf last) := by
  have hmem1 : r ∈ refs.filterMap id := List.mem_filterMap.mpr ⟨some r, hr, rfl⟩
  have hmem2 : r ∈ packImageRefs refs := by
    unfold packImageRefs
    exact List.mem_filter.mpr ⟨List.mem_filter.mpr ⟨hmem1, hri⟩, hrk⟩
  have hemp : ((packImageRefs refs).map mkAttachment).isEmpty = false := by
    cases hmap : (packImageRefs refs).map mkAttachment with
    | nil =>
      rw [List.map_eq_nil] at hmap
      rw [hmap] at hmem2
      exact absurd hmem2 (List.not_mem_nil r)
    | cons a t => rfl
  have hlast2 : (packMutated msgs isRefConv).getLast? = some last := by
    rw [packMutated_getLast?]
    exact hlast
  unfold messagesPrepare
  simp only [hemp, hlast2, Bool.not_false, if_true]

def msgsC6 : List Msg :=
  [⟨.user, .mstr (strOf "a")⟩,
   ⟨.user, .mparts [.pimage (strOf "http://x/i.png"), .ptext (strOf "b")]⟩]

/-- **C6 counterexample**: the last message contains an image part and the
history has two messages, but with no staged image reference (the upload
failed and was filtered out) the payload text is the full role-tagged
history — not only the last message's text parts (which would be `b`). -/
theorem c6_vision_text_restriction_counterexample :
    msgHasFileOrImage ⟨.user, .mparts [.pimage (strOf "http://x/i.png"),
      .ptext (strOf "b")]⟩ = true ∧
    msgsC6.length = 2 ∧
    (messagesPrepare msgsC6 [] false).1.text =
      strOf "<|im_start|>user\na\n<|im_end|>\n<|im_start|>system\n关注用户最新发送文件和消息\n<|im_end|>\n<|im_start|>user\nb" ∧
    (messagesPrepare msgsC6 [] false).1.text ≠ cleanBase64 (strOf "b") := by
  refine ⟨by decide, by decide, by decide, by decide⟩

/-- Witness for the amended C6 at a concrete conversation with a staged
image reference. -/
theorem c6_vision_text_restriction_witness :
    (messagesPrepare msgsC6
        [some ⟨strOf "tos-cn-i-abc/k", strOf "i.png", strOf "png", 2, 3⟩] false).1.text =
      cleanBase64 (lastTextOf ⟨.user, .mparts [.pimage (strOf "http://x/i.png"),
        .ptext (strOf "b")]⟩) ∧
    cleanBase64 (lastTextOf ⟨.user, .mparts [.pimage (strOf "http://x/i.png"),
      .ptext (strOf "b")]⟩) = strOf "b" :=
  ⟨c6_vision_text_restriction msgsC6
      [some ⟨strOf "tos-cn-i-abc/k", strOf "i.png", strOf "png", 2, 3⟩] false
      ⟨.user, .mparts [.pimage (strOf "http://x/i.png"), .ptext (strOf "b")]⟩
      ⟨strOf "tos-cn-i-abc/k", strOf "i.png", strOf "png", 2, 3⟩
      (by decide) (by decide) (by decide) (by decide) (by decide) (by decide),
   by decide⟩

/-- **C7** (amended).  For reference conversations or histories with at
most one message, and with no successfully staged image attachment, the
payload text is the verbatim flattening (text parts each followed by a
newline, no role delimiters) with the base64/data-URI cleanup applied —
in particular the cleanup's `trim()` removes the flattening's final
newline, so the emitted text is the flattened text *trimmed*, not the
flattened text itself (see the counterexample). -/
theorem c7_verbatim_flatten (msgs : List Msg) (refs : List (Option Ref)) (isRefConv : Bool)
    (hbr : isRefConv = true ∨ msgs.length < 2)
    (hnoimg : packImageRefs refs = []) :
    (messagesPrepare msgs refs isRefConv).1.text = cleanBase64 (flattenVerbatim msgs) := by
  have hcond : isRefConv = true ∨ msgs.length < 2 := hbr
  have hemp : ((packImageRefs refs).map mkAttachment).isEmpty = true := by
    rw [hnoimg]
    rfl
  unfold messagesPrepare packContent
  rcases hcond with hc | hc
  · simp [hemp, hc]
  · simp [hemp, hc]

def msgsC7 : List Msg := [⟨.user, .mparts [.ptext (strOf "hi")]⟩]

/-- **C7 counterexample**: for the single message with one text part
`"hi"`, the claim's flattened text is `"hi\n"` (each part followed by a
newline) but the emitted payload text is the trimmed `"hi"`. -/
theorem c7_verbatim_flatten_counterexample :
    flattenVerbatim msgsC7 = strOf "hi\n" ∧
    (messagesPrepare msgsC7 [] false).1.text = strOf "hi" ∧
    (messagesPrepare msgsC7 [] false).1.text ≠ flattenVerbatim msgsC7 := by
  refine ⟨by decide, by decide, by decide⟩

/-- Witness for the amended C7 at the same single-message conversation. -/
theorem c7_verbatim_flatten_witness :
    (messagesPrepare msgsC7 [] false).1.text = cleanBase64 (flattenVerbatim msgsC7) ∧
    cleanBase64 (flattenVerbatim msgsC7) = strOf "hi" :=
  ⟨c7_verbatim_flatten msgsC7 [] false (Or.inr (by decide)) (by decide), by decide⟩

/-! ## Claim C9: binary transfer to TOS -/

/-- Modelled from the spec: `util.crc32` (lib/util.ts is not in src/) — the
standard CRC-32 checksum (ISO 3309, reflected polynomial 0xEDB88320),
table-free bitwise form. -/
def crc32Poly : Nat := 0xEDB88320

def crcBit (crc : Nat) : Nat :=
  if crc % 2 = 1 then (crc / 2) ^^^ crc32Poly else crc / 2

def crcBits : Nat → Nat → Nat
  | 0, crc => crc
  | n + 1, crc => crcBits n (crcBit crc)

def crc32 (data : List Nat) : Nat :=
  (data.foldl (fun crc b => crcBits 8 (crc ^^^ (b % 256))) 0xFFFFFFFF) ^^^ 0xFFFFFFFF

/-- `(util.crc32(fileData) >>> 0).toString(16).padStart(8, '0')` — the
unsigned coercion is the identity here because the model computes in
naturals below 2^32. -/
def crc32Hex (data : List Nat) : Str := padStartZero 8 (natToHexLower (crc32 data))

/-- The request issued by `uploadToTos` (headers beyond the three set by
the source elided). -/
structure TosRequest where
  method : Str
  url : Str
  authorization : Str
  contentCrc32 : Str
  contentType : Str
deriving DecidableEq

def uploadToTosRequest (tosHost storeUri auth : Str) (fileData : List Nat)
    (mimeType : Str) : TosRequest :=
  { method := strOf "post"
    url := strOf "https://" ++ tosHost ++ strOf "/upload/v1/" ++ storeUri
    authorization := auth
    contentCrc32 := crc32Hex fileData
    contentType := if !mimeType.isEmpty then mimeType else strOf "application/octet-stream" }

/-- `code !== 2000 && String(code) !== "2000"` (negated): the embedded
response code counts as success when it is the number 2000 or the string
"2000". -/
def isCode2000 : Option JVal → Bool
  | some (.jnum n) => n == 2000
  | some (.jstr s) => s == strOf "2000"
  | _ => false

/-- Failure condition of the binary transfer: axios' default
`validateStatus` rejects non-2xx statuses (re-thrown by the catch), and a
2xx response still fails on `res.status >= 300 || code !== 2000` — so the
step fails exactly when the status is not a success or the embedded code
is not a success. -/
def uploadToTosFails (status : Nat) (code : Option JVal) : Bool :=
  !(decide (200 ≤ status) && decide (status < 300)) || !(isCode2000 code)

/-- **C9** (amended).  The binary-transfer step issues a **POST** (not a
PUT as claimed) of the raw bytes to `storageHost/upload/v1/{storeUri}`
carrying the per-object auth token and the CRC-32 checksum rendered as
lowercase hex zero-padded to 8 digits, and it fails exactly when the HTTP
status is non-success or the embedded response code is non-success.  The
final conjunct pins the modelled checksum to the standard CRC-32 check
value. -/
theorem c9_binary_transfer (tosHost storeUri auth : Str) (fileData : List Nat)
    (mimeType : Str) (status : Nat) (code : Option JVal) :
    (uploadToTosRequest tosHost storeUri auth fileData mimeType).method = strOf "post" ∧
    (uploadToTosRequest tosHost storeUri auth fileData mimeType).url =
      strOf "https://" ++ tosHost ++ strOf "/upload/v1/" ++ storeUri ∧
    (uploadToTosRequest tosHost storeUri auth fileData mimeType).authorization = auth ∧
    (uploadToTosRequest tosHost storeUri auth fileData mimeType).contentCrc32 =
      padStartZero 8 (natToHexLower (crc32 fileData)) ∧
    (uploadToTosFails status code = false ↔
      ((200 ≤ status ∧ status < 300) ∧ isCode2000 code = true)) ∧
    crc32 (strBytes (strOf "123456789")) = 0xCBF43926 := by
  refine ⟨rfl, rfl, rfl, rfl, ?_, by decide⟩
  unfold uploadToTosFails
  constructor
  · intro h
    simp only [Bool.or_eq_false_iff, Bool.not_eq_false', Bool.not_eq_true',
      Bool.and_eq_true, decide_eq_true_eq] at h
    exact ⟨⟨h.1.1, h.1.2⟩, h.2⟩
  · intro h
    simp only [Bool.or_eq_false_iff, Bool.not_eq_false', Bool.not_eq_true',
      Bool.and_eq_true, decide_eq_true_eq]
    exact ⟨⟨h.1.1, h.1.2⟩, h.2⟩

/-- **C9 counterexample**: the claim says the transfer is a PUT; the code
issues `axios.post`. -/
theorem c9_binary_transfer_counterexample :
    (uploadToTosRequest (strOf "tos.example") (strOf "tos-cn-i-x/y") (strOf "tok")
      [1, 2, 3] (strOf "image/png")).method = strOf "post" ∧
    (uploadToTosRequest (strOf "tos.example") (strOf "tos-cn-i-x/y") (strOf "tok")
      [1, 2, 3] (strOf "image/png")).method ≠ strOf "put" := by
  refine ⟨by decide, by decide⟩

/-! ## Upload pipeline (`checkFileUrl`, `uploadFile`) -/

/-- Modelled from the spec: `util.isURL` (lib/util.ts is not in src/) — an
absolute http(s) URL. -/
def isURL (s : Str) : Bool :=
  strStarts (strOf "http://") s || strStarts (strOf "https://") s

def sextet (c : Char) : Option Nat :=
  if 'A' ≤ c && c ≤ 'Z' then some (c.toNat - 'A'.toNat)
  else if 'a' ≤ c && c ≤ 'z' then some (c.toNat - 'a'.toNat + 26)
  else if isDigitC c then some (c.toNat - '0'.toNat + 52)
  else if c == '+' then some 62
  else if c == '/' then some 63
  else none

def b64Groups : List Nat → List Nat
  | a :: b :: c :: d :: rest =>
      (a * 4 + b / 16) :: ((b % 16) * 16 + c / 4) :: ((c % 4) * 64 + d) :: b64Groups rest
  | [a, b] => [a * 4 + b / 16]
  | [a, b, c] => [a * 4 + b / 16, (b % 16) * 16 + c / 4]
  | _ => []

/-- `Buffer.from(s, "base64")` — lenient decoding that skips characters
outside the alphabet (including `=` padding). -/
def base64Decode (s : Str) : List Nat := b64Groups (s.filterMap sextet)

/-- The inline image-type sniff of `extractRefFileUrls`. -/
def b64MimeSniff (buf : List Nat) : Str :=
  if buf.getD 0 0 == 0x89 && buf.getD 1 0 == 0x50 && buf.getD 2 0 == 0x4e &&
      buf.getD 3 0 == 0x47 then strOf "image/png"
  else if buf.getD 0 0 == 0xff && buf.getD 1 0 == 0xd8 then strOf "image/jpeg"
  else if buf.take 6 == strBytes (strOf "GIF87a") || buf.take 6 == strBytes (strOf "GIF89a") then
    strOf "image/gif"
  else if buf.take 4 == strBytes (strOf "RIFF") &&
      (buf.drop 8).take 4 == strBytes (strOf "WEBP") then strOf "image/webp"
  else strOf "application/octet-stream"

/-- `normalizeCandidate`: an existing data URI passes through; bare base64
longer than 500 characters is wrapped into a sniffed data URI when it
decodes to more than 4 bytes; otherwise plain URLs pass and anything else
is dropped. -/
def normalizeCandidate (maybe : Str) : Option Str :=
  if isBASE64Data maybe then some maybe
  else if isBASE64 maybe && decide (500 < maybe.length) then
    let buf := base64Decode maybe
    if decide (4 < buf.length) then
      some (strOf "data:" ++ b64MimeSniff buf ++ strOf ";base64," ++ maybe)
    else if isURL maybe then some maybe else none
  else if isURL maybe then some maybe else none

/-- `extractRefFileUrls`: only the last message is scanned; string parts,
`file` parts and the `image_url`-family parts contribute normalized
upload candidates. -/
def extractRefFileUrls (messages : List Msg) : List Str :=
  match messages.getLast? with
  | none => []
  | some lastMessage =>
    match lastMessage.content with
    | .mstr _ => []
    | .mparts ps =>
      ps.foldl (fun urls v =>
        match v with
        | .praw s =>
            match normalizeCandidate s with
            | some u => urls ++ [u]
            | none => urls
        | .pfile url =>
            match normalizeCandidate url with
            | some u => urls ++ [u]
            | none => urls
        | .pimage url | .pinputImage url | .pimageAlt url =>
            match normalizeCandidate url with
            | some u => urls ++ [u]
            | none => urls
        | .ptext _ => urls
        | .pother => urls) []

def FILE_MAX_SIZE : Nat := 100 * 1024 * 1024

/-- External effects of one `uploadFile` invocation, supplied as an
environment: the HEAD pre-check result, the body download, and the
outcomes of the three staged-upload calls.  The commit call is issued for
images but its failure is swallowed, so its outcome does not appear. -/
structure UploadEnv where
  headStatus : Nat
  headContentLength : Option Nat
  download : Except Unit (List Nat)
  stsOk : Bool
  applyStoreUri : Option Str
  applyAuth : Str
  applyTosHost : Str
  tosStatus : Nat
  tosCode : Option JVal

/-- `checkFileUrl`: skipped for data URIs; a status of 400 or more raises
`API_FILE_URL_INVALID`; a Content-Length above 100 MiB raises
`API_FILE_EXECEEDS_SIZE`. -/
def checkFileUrlRun (fileUrl : Str) (env : UploadEnv) : Except ApiErr Unit :=
  if isBASE64Data fileUrl then .ok ()
  else if 400 ≤ env.headStatus then .error .fileUrlInvalid
  else
    match env.headContentLength with
    | some n => if FILE_MAX_SIZE < n then .error .fileSizeExceeded else .ok ()
    | none => .ok ()

/-- Modelled from the spec: the `mime` package lookup, for the extensions
this gateway actually meets. -/
def extToMime (ext : Str) : Option Str :=
  if ext == strOf "png" then some (strOf "image/png")
  else if ext == strOf "jpg" || ext == strOf "jpeg" then some (strOf "image/jpeg")
  else if ext == strOf "gif" then some (strOf "image/gif")
  else if ext == strOf "webp" then some (strOf "image/webp")
  else if ext == strOf "txt" then some (strOf "text/plain")
  else if ext == strOf "pdf" then some (strOf "application/pdf")
  else none

/-- Modelled from the spec: `mime.getExtension`. -/
def mimeToExt (m : Str) : Option Str :=
  if m == strOf "image/png" then some (strOf "png")
  else if m == strOf "image/jpeg" then some (strOf "jpg")
  else if m == strOf "image/gif" then some (strOf "gif")
  else if m == strOf "image/webp" then some (strOf "webp")
  else if m == strOf "text/plain" then some (strOf "txt")
  else if m == strOf "application/pdf" then some (strOf "pdf")
  else none

/-- `path.basename` (query strings are kept, as in the source). -/
def basename (url : Str) : Str := (List.splitOn '/' url).getLastD []

/-- `path.extname(filename).replace(/^\./, "")`. -/
def extOfFilename (name : Str) : Str :=
  let parts := List.splitOn '.' name
  if parts.length ≤ 1 then [] else parts.getLastD []

def toLowerChar (c : Char) : Char :=
  if 'A' ≤ c && c ≤ 'Z' then Char.ofNat (c.toNat + 32) else c

/-- `data:<mime>;base64,<body>` accessors (modelled from the spec for the
missing util.ts). -/
def b64DataMime (s : Str) : Str := (s.drop 5).takeWhile (fun c => c ≠ ';')

def dropThrough (marker : Str) : Str → Str
  | [] => []
  | c :: cs =>
      if strStarts marker (c :: cs) then (c :: cs).drop marker.length
      else dropThrough marker cs

def b64DataBody (s : Str) : Str := dropThrough (strOf ";base64,") s

def readU16BE (buf : List Nat) (i : Nat) : Nat := buf.getD i 0 * 256 + buf.getD (i + 1) 0

def readU32BE (buf : List Nat) (i : Nat) : Nat :=
  buf.getD i 0 * 16777216 + buf.getD (i + 1) 0 * 65536 +
    buf.getD (i + 2) 0 * 256 + buf.getD (i + 3) 0

def readU32LE (buf : List Nat) (i : Nat) : Nat :=
  buf.getD i 0 + buf.getD (i + 1) 0 * 256 +
    buf.getD (i + 2) 0 * 65536 + buf.getD (i + 3) 0 * 16777216

def jpegSofMarkers : List Nat :=
  [0xC0, 0xC1, 0xC2, 0xC3, 0xC5, 0xC6, 0xC7, 0xC9, 0xCA, 0xCB, 0xCD, 0xCE, 0xCF]

/-- The JPEG SOF marker scan of `sniffImageSize`. -/
def jpegScan (buf : List Nat) : Nat → Nat → Option (Nat × Nat)
  | 0, _ => none
  | fuel + 1, i =>
    if i + 9 < buf.length then
      if buf.getD i 0 ≠ 0xff then jpegScan buf fuel (i + 1)
      else
        let marker := buf.getD (i + 1) 0
        let len := readU16BE buf (i + 2)
        if jpegSofMarkers.contains marker then
          let height := readU16BE buf (i + 5)
          let width := readU16BE buf (i + 7)
          if 0 < width && 0 < height then some (width, height) else none
        else jpegScan buf fuel (i + 2 + len)
    else none

/-- The WEBP VP8X chunk walk of `sniffImageSize`. -/
def webpScan (buf : List Nat) : Nat → Nat → Option (Nat × Nat)
  | 0, _ => none
  | fuel + 1, p =>
    if p + 8 ≤ buf.length then
      let chunk := (buf.drop p).take 4
      let size := readU32LE buf (p + 4)
      if chunk == strBytes (strOf "VP8X") && decide (p + 18 ≤ buf.length) then
        let wM1 := buf.getD (p + 12) 0 + buf.getD (p + 13) 0 * 256 + buf.getD (p + 14) 0 * 65536
        let hM1 := buf.getD (p + 15) 0 + buf.getD (p + 16) 0 * 256 + buf.getD (p + 17) 0 * 65536
        some (wM1 + 1, hM1 + 1)
      else webpScan buf fuel (p + 8 + size + size % 2)
    else none

/-- `sniffImageSize`: header-only dimension sniffing for PNG (IHDR), JPEG
(SOF scan) and WEBP (VP8X); each recogniser falls through to the next on
an unusable header. -/
def sniffImageSize (buf : List Nat) (mimeType : Str) : Option (Nat × Nat) :=
  if buf.length < 16 then none
  else
    let png :=
      if strContains (strOf "png") mimeType ||
          (buf.getD 0 0 == 0x89 && buf.getD 1 0 == 0x50 &&
           buf.getD 2 0 == 0x4e && buf.getD 3 0 == 0x47) then
        if 24 ≤ buf.length then
          let w := readU32BE buf 16
          let h := readU32BE buf 20
          if 0 < w && 0 < h then some (w, h) else none
        else none
      else none
    match png with
    | some wh => some wh
    | none =>
      let jpg :=
        if strContains (strOf "jpeg") mimeType || strContains (strOf "jpg") mimeType ||
            (buf.getD 0 0 == 0xff && buf.getD 1 0 == 0xd8) then
          jpegScan buf (buf.length + 1) 2
        else none
      match jpg with
      | some wh => some wh
      | none =>
        if strContains (strOf "webp") mimeType ||
            (buf.getD 0 0 == 0x52 && buf.getD 1 0 == 0x49 && buf.getD 2 0 == 0x46 &&
             buf.getD 3 0 == 0x46 && (buf.drop 8).take 4 == strBytes (strOf "WEBP")) then
          webpScan buf (buf.length + 1) 12
        else none

/-- `uploadFile`.  The pre-check and the body download run **outside** the
try/catch, so their failures propagate to the caller; failures of the
staged-upload phases (STS, apply, binary transfer) are caught — an image
yields `none` (dropped) and a non-image yields the placeholder reference.
The commit phase (images only) is best-effort and cannot fail the upload.
The uuid stem of the data-URI filename is modelled by a fixed stem, and
the reference's `kind` field is elided (the packer discriminates on the
width/height fields, as the source's consumers do). -/
def uploadFileRun (fileUrl : Str) (env : UploadEnv) : Except ApiErr (Option Ref) :=
  match checkFileUrlRun fileUrl env with
  | .error e => .error e
  | .ok _ =>
    let isB64 := isBASE64Data fileUrl
    let mimeType0 : Option Str := if isB64 then some (b64DataMime fileUrl) else none
    let extFromMime : Option Str := mimeType0.bind mimeToExt
    let materialised : Except ApiErr (Str × List Nat) :=
      if isB64 then
        .ok (strOf "upload." ++ extFromMime.getD (strOf "bin"),
          base64Decode (b64DataBody fileUrl))
      else
        match env.download with
        | .ok bytes => .ok (basename fileUrl, bytes)
        | .error _ => .error .downloadFailed
    match materialised with
    | .error e => .error e
    | .ok fd =>
      let filename := fd.1
      let fileData := fd.2
      let mimeType :=
        match mimeType0 with
        | some m => m
        | none => (extToMime (extOfFilename filename)).getD (strOf "application/octet-stream")
      let isImage := strStarts (strOf "image/") mimeType
      let ext :=
        (match extFromMime with
          | some e => e
          | none =>
            let pe := extOfFilename filename
            if !pe.isEmpty then pe
            else (mimeToExt mimeType).getD (strOf "bin")).map toLowerChar
      let tryRes : Except Unit Ref :=
        if !env.stsOk then .error ()
        else
          match env.applyStoreUri with
          | none => .error ()
          | some storeUri =>
            if uploadToTosFails env.tosStatus env.tosCode then .error ()
            else
              let size := if isImage then sniffImageSize fileData mimeType else none
              .ok { url := storeUri, name := filename, ext := ext,
                    width := if isImage then (size.map Prod.fst).getD 1 else 0,
                    height := if isImage then (size.map Prod.snd).getD 1 else 0 }
      match tryRes with
      | .ok ref => .ok (some ref)
      | .error _ =>
          if isImage then .ok none
          else .ok (some { url := strOf "upload-failed://placeholder", name := filename,
                           ext := ext, width := 0, height := 0 })

/-! ## Completion orchestrators (`createCompletion`, `createCompletionStream`) -/

def MAX_RETRY_COUNT : Nat := 3
def RETRY_DELAY : Nat := 5000

/-- The unanchored test `/[0-9a-zA-Z]{24}/.test(refConvId)`: some position
starts a run of 24 alphanumerics. -/
def isAlnumC (c : Char) : Bool :=
  isDigitC c || ('a' ≤ c && c ≤ 'z') || ('A' ≤ c && c ≤ 'Z')

def hasRun24 : Str → Bool
  | [] => false
  | c :: cs => decide (24 ≤ ((c :: cs).takeWhile isAlnumC).length) || hasRun24 cs

/-- `Promise.all` over the per-URL uploads: the first rejection (in list
order, modelling temporal order) rejects the whole batch. -/
def collectRefs : List (Except ApiErr (Option Ref)) → Except ApiErr (List (Option Ref))
  | [] => .ok []
  | .error e :: _ => .error e
  | .ok r :: rest => (collectRefs rest).map (fun rs => r :: rs)

/-- External effects of one completion attempt: one upload environment per
extracted URL (in order), whether the upstream answered with a
`text/event-stream` content type, and the SSE body chunks. -/
structure AttemptEnv where
  uploads : List UploadEnv
  contentTypeOk : Bool
  chunks : List (List Nat)

/-- One buffered attempt body (the async IIFE of `createCompletion`):
extract and upload referenced files, prepare the messages (mutating the
array), then check the content type and receive the stream.  A bad
content type throws `API_REQUEST_FAILED` (`Content-Type invalid`),
modelled as its own constructor. -/
def attemptRun (env : AttemptEnv) (msgs : List Msg) (isRefConv : Bool) :
    Except ApiErr Answer × List Msg :=
  let urls := extractRefFileUrls msgs
  match collectRefs ((urls.zip env.uploads).map (fun p => uploadFileRun p.1 p.2)) with
  | .error e => (.error e, msgs)
  | .ok refs =>
    let prep := messagesPrepare msgs refs isRefConv
    if !env.contentTypeOk then (.error .contentTypeInvalid, prep.2)
    else (receiveStreamRun env.chunks, prep.2)

structure RunOut where
  result : Except ApiErr Answer
  msgs : List Msg
  attempts : Nat
  delays : List Nat
deriving DecidableEq

/-- `createCompletion` with its retry wrapper: on any rejection with
`retryCount < MAX_RETRY_COUNT`, wait `RETRY_DELAY` and recurse with
`retryCount + 1` over the same (now mutated) messages array.  The
environment list supplies one `AttemptEnv` per attempt actually made;
`attempts` counts them and `delays` records the waits taken. -/
def createCompletionRun : List AttemptEnv → List Msg → Str → Nat → RunOut
  | [], msgs, _, _ => ⟨.error .noAttemptEnv, msgs, 0, []⟩
  | env :: rest, msgs, refConvId, retryCount =>
    let isRef := hasRun24 refConvId
    let att := attemptRun env msgs isRef
    match att.1 with
    | .ok a => ⟨.ok a, att.2, 1, []⟩
    | .error e =>
      if retryCount < MAX_RETRY_COUNT then
        let r := createCompletionRun rest att.2 refConvId (retryCount + 1)
        ⟨r.result, r.msgs, r.attempts + 1, RETRY_DELAY :: r.delays⟩
      else ⟨.error e, att.2, 1, []⟩

/-- On a non-`text/event-stream` response, `createCompletionStream`
resolves a PassThrough already ended with this single synthetic chunk
(and no `[DONE]` line) — the promise resolves, so the retry wrapper never
sees an error. -/
def syntheticUnavailableChunk : TChunk :=
  .chunk [] (strOf "服务暂时不可用，第三方响应错误") (some stopStr)

/-- One streaming attempt body (the async IIFE of
`createCompletionStream`). -/
def streamAttemptRun (env : AttemptEnv) (msgs : List Msg) (isRefConv : Bool) :
    Except ApiErr (List TChunk) × List Msg :=
  let urls := extractRefFileUrls msgs
  match collectRefs ((urls.zip env.uploads).map (fun p => uploadFileRun p.1 p.2)) with
  | .error e => (.error e, msgs)
  | .ok refs =>
    let prep := messagesPrepare msgs refs isRefConv
    if !env.contentTypeOk then (.ok [syntheticUnavailableChunk], prep.2)
    else (.ok (createTransRun env.chunks), prep.2)

structure StreamRunOut where
  result : Except ApiErr (List TChunk)
  msgs : List Msg
  attempts : Nat
  delays : List Nat
deriving DecidableEq

/-- `createCompletionStream` with its retry wrapper. -/
def createCompletionStreamRun : List AttemptEnv → List Msg → Str → Nat → StreamRunOut
  | [], msgs, _, _ => ⟨.error .noAttemptEnv, msgs, 0, []⟩
  | env :: rest, msgs, refConvId, retryCount =>
    let isRef := hasRun24 refConvId
    let att := streamAttemptRun env msgs isRef
    match att.1 with
    | .ok cs => ⟨.ok cs, att.2, 1, []⟩
    | .error e =>
      if retryCount < MAX_RETRY_COUNT then
        let r := createCompletionStreamRun rest att.2 refConvId (retryCount + 1)
        ⟨r.result, r.msgs, r.attempts + 1, RETRY_DELAY :: r.delays⟩
      else ⟨.error e, att.2, 1, []⟩

/-! ## Claims C3, C4, C5, C10 — supporting lemmas -/

theorem messagesPrepare_snd (msgs : List Msg) (refs : List (Option Ref)) (isRefConv : Bool) :
    (messagesPrepare msgs refs isRefConv).2 = packMutated msgs isRefConv := rfl

/-- The splice never touches the last message, so URL extraction is stable
under the packer's mutation. -/
theorem extractRefFileUrls_packMutated (msgs : List Msg) (isRefConv : Bool) :
    extractRefFileUrls (packMutated msgs isRefConv) = extractRefFileUrls msgs := by
  unfold extractRefFileUrls
  rw [packMutated_getLast?]

/-- A buffered attempt over a conversation with no upload candidates and a
bad upstream content type fails with the content-type error, after the
packer has mutated the messages. -/
theorem attemptRun_ct_false (env : AttemptEnv) (msgs : List Msg) (isRef : Bool)
    (hu : extractRefFileUrls msgs = []) (hct : env.contentTypeOk = false) :
    attemptRun env msgs isRef = (.error .contentTypeInvalid, packMutated msgs isRef) := by
  unfold attemptRun
  rw [hu]
  simp [collectRefs, hct, messagesPrepare_snd]

/-- The streaming counterpart: the synthetic chunk is substituted and the
attempt **resolves**. -/
theorem streamAttemptRun_ct_false (env : AttemptEnv) (msgs : List Msg) (isRef : Bool)
    (hu : extractRefFileUrls msgs = []) (hct : env.contentTypeOk = false) :
    streamAttemptRun env msgs isRef =
      (.ok [syntheticUnavailableChunk], packMutated msgs isRef) := by
  unfold streamAttemptRun
  rw [hu]
  simp [collectRefs, hct, messagesPrepare_snd]

/-! ## Claim C3 -/

def urlC3png : Str := strOf "http://x/i.png"
def urlC3txt : Str := strOf "http://x/d.txt"

/-- A pre-check probe answering HTTP 404. -/
def e404C3 : UploadEnv :=
  ⟨404, none, .error (), true, some (strOf "tos-cn-i-a/b"), [], [], 200, none⟩

/-- A healthy pre-check and download, but a failing binary transfer. -/
def eTosC3 : UploadEnv :=
  ⟨200, none, .ok [1, 2, 3], true, some (strOf "tos-cn-i-a/b"), [], [], 500, none⟩

def msgsC3 : List Msg := [⟨.user, .mparts [.pimage urlC3png, .ptext (strOf "hi")]⟩]

/-- **C3** (amended).  How upload failures reach the completion: (1) a
pre-check failure (HTTP status ≥ 400) happens **outside** the try/catch
and so escapes `uploadFile` as `API_FILE_URL_INVALID` — it is *not*
absorbed; (2) a staging failure (STS / apply / binary transfer) after the
bytes are materialised *is* absorbed: an image upload yields `none`
(dropped); (3) a non-image upload yields the placeholder reference;
(4) an absorbed image failure leaves the attempt running text-only with
no attachments. -/
theorem c3_upload_failure_handling :
    (∀ (url : Str) (env : UploadEnv), isBASE64Data url = false → 400 ≤ env.headStatus →
      uploadFileRun url env = .error .fileUrlInvalid) ∧
    (∀ (url : Str) (env : UploadEnv) (bytes : List Nat),
      isBASE64Data url = false →
      checkFileUrlRun url env = .ok () →
      env.download = .ok bytes →
      strStarts (strOf "image/")
        ((extToMime (extOfFilename (basename url))).getD (strOf "application/octet-stream")) =
        true →
      (env.stsOk = false ∨ env.applyStoreUri = none ∨
        uploadToTosFails env.tosStatus env.tosCode = true) →
      uploadFileRun url env = .ok none) ∧
    (∀ (url : Str) (env : UploadEnv) (bytes : List Nat),
      isBASE64Data url = false →
      checkFileUrlRun url env = .ok () →
      env.download = .ok bytes →
      strStarts (strOf "image/")
        ((extToMime (extOfFilename (basename url))).getD (strOf "application/octet-stream")) =
        false →
      (env.stsOk = false ∨ env.applyStoreUri = none ∨
        uploadToTosFails env.tosStatus env.tosCode = true) →
      ∃ ref, uploadFileRun url env = .ok (some ref) ∧
        ref.url = strOf "upload-failed://placeholder") ∧
    (∀ (aenv : AttemptEnv) (uenv : UploadEnv) (msgs : List Msg) (url : Str) (isRef : Bool),
      extractRefFileUrls msgs = [url] →
      aenv.uploads = [uenv] →
      uploadFileRun url uenv = .ok none →
      aenv.contentTypeOk = true →
      attemptRun aenv msgs isRef =
        (receiveStreamRun aenv.chunks, (messagesPrepare msgs [none] isRef).2) ∧
      (messagesPrepare msgs [none] isRef).1.attachments = []) := by
  refine ⟨?_, ?_, ?_, ?_⟩
  · intro url env hb h400
    have hc : checkFileUrlRun url env = .error .fileUrlInvalid := by
      unfold checkFileUrlRun
      rw [hb]
      simp [h400]
    unfold uploadFileRun
    rw [hc]
  · intro url env bytes hb hchk hd him hfail
    cases hs : env.stsOk with
    | false => simp [uploadFileRun, hchk, hb, hd, him, hs]
    | true =>
      cases ha : env.applyStoreUri with
      | none => simp [uploadFileRun, hchk, hb, hd, him, hs, ha]
      | some su =>
        rcases hfail with h | h | h
        · rw [hs] at h; cases h
        · rw [ha] at h; cases h
        · simp [uploadFileRun, hchk, hb, hd, him, hs, ha, h]
  · intro url env bytes hb hchk hd him hfail
    cases hs : env.stsOk with
    | false =>
      simp [uploadFileRun, hchk, hb, hd, him, hs]
    | true =>
      cases ha : env.applyStoreUri with
      | none =>
        simp [uploadFileRun, hchk, hb, hd, him, hs, ha]
      | some su =>
        rcases hfail with h | h | h
        · rw [hs] at h; cases h
        · rw [ha] at h; cases h
        · simp [uploadFileRun, hchk, hb, hd, him, hs, ha, h]
  · intro aenv uenv msgs url isRef hx hz hup hct
    constructor
    · unfold attemptRun
      rw [hx, hz]
      simp [collectRefs, hup, hct, Except.map]
    · show ((packImageRefs [none]).map mkAttachment) = []
      rfl

theorem c3_upload_failure_handling_witness :
    uploadFileRun urlC3png e404C3 = .error .fileUrlInvalid ∧
    uploadFileRun urlC3png eTosC3 = .ok none ∧
    (∃ ref, uploadFileRun urlC3txt eTosC3 = .ok (some ref) ∧
      ref.url = strOf "upload-failed://placeholder") ∧
    (attemptRun ⟨[eTosC3], true, []⟩ msgsC3 false =
        (receiveStreamRun [], (messagesPrepare msgsC3 [none] false).2) ∧
      (messagesPrepare msgsC3 [none] false).1.attachments = []) :=
  ⟨c3_upload_failure_handling.1 urlC3png e404C3 (by decide) (by decide),
   c3_upload_failure_handling.2.1 urlC3png eTosC3 [1, 2, 3] (by decide) (by decide)
     (by decide) (by decide) (Or.inr (Or.inr (by decide))),
   c3_upload_failure_handling.2.2.1 urlC3txt eTosC3 [1, 2, 3] (by decide) (by decide)
     (by decide) (by decide) (Or.inr (Or.inr (by decide))),
   c3_upload_failure_handling.2.2.2 ⟨[eTosC3], true, []⟩ eTosC3 msgsC3 urlC3png false
     (by decide) rfl (by decide) rfl⟩

/-- **C3 counterexample**: the claimed scenario — an attached image URL
whose pre-check answers 404 — does *not* degrade gracefully: the
pre-check throws outside the try/catch, every retry repeats it, and the
whole chat request fails with `API_FILE_URL_INVALID` after the initial
attempt plus three retries, instead of succeeding text-only. -/
theorem c3_upload_failure_handling_counterexample :
    (createCompletionRun [⟨[e404C3], true, []⟩, ⟨[e404C3], true, []⟩,
        ⟨[e404C3], true, []⟩, ⟨[e404C3], true, []⟩] msgsC3 [] 0).result =
      .error .fileUrlInvalid ∧
    (createCompletionRun [⟨[e404C3], true, []⟩, ⟨[e404C3], true, []⟩,
        ⟨[e404C3], true, []⟩, ⟨[e404C3], true, []⟩] msgsC3 [] 0).attempts = 4 := by
  refine ⟨by decide, by decide⟩

/-! ## Claim C4 -/

def envBadCT : AttemptEnv := ⟨[], false, []⟩
def envGoodCT : AttemptEnv := ⟨[], true, []⟩
def msgsC4 : List Msg := [⟨.user, .mstr (strOf "hi")⟩]

/-- **C4** (amended).  On a non-`text/event-stream` upstream response:
streaming mode substitutes the synthetic single-chunk "service
unavailable" stream **immediately on the first bad response** — the
attempt resolves, so zero retries are consumed and any remaining retry
budget is unused; buffered mode raises the failure to the caller only
after the initial attempt plus `MAX_RETRY_COUNT` retries spaced
`RETRY_DELAY` apart all fail. -/
theorem c4_content_type_substitution :
    (∀ (env : AttemptEnv) (envs : List AttemptEnv) (msgs : List Msg) (rid : Str),
      env.contentTypeOk = false → extractRefFileUrls msgs = [] →
      createCompletionStreamRun (env :: envs) msgs rid 0 =
        ⟨.ok [syntheticUnavailableChunk], packMutated msgs (hasRun24 rid), 1, []⟩) ∧
    (∀ (e1 e2 e3 e4 : AttemptEnv) (msgs : List Msg) (rid : Str),
      e1.contentTypeOk = false → e2.contentTypeOk = false →
      e3.contentTypeOk = false → e4.contentTypeOk = false →
      extractRefFileUrls msgs = [] →
      (createCompletionRun [e1, e2, e3, e4] msgs rid 0).result = .error .contentTypeInvalid ∧
      (createCompletionRun [e1, e2, e3, e4] msgs rid 0).attempts = 4 ∧
      (createCompletionRun [e1, e2, e3, e4] msgs rid 0).delays =
        [RETRY_DELAY, RETRY_DELAY, RETRY_DELAY]) := by
  constructor
  · intro env envs msgs rid hct hu
    have h := streamAttemptRun_ct_false env msgs (hasRun24 rid) hu hct
    simp [createCompletionStreamRun, h]
  · intro e1 e2 e3 e4 msgs rid h1ct h2ct h3ct h4ct hu
    have hu1 : extractRefFileUrls (packMutated msgs (hasRun24 rid)) = [] := by
      rw [extractRefFileUrls_packMutated]; exact hu
    have hu2 : extractRefFileUrls
        (packMutated (packMutated msgs (hasRun24 rid)) (hasRun24 rid)) = [] := by
      rw [extractRefFileUrls_packMutated]; exact hu1
    have hu3 : extractRefFileUrls (packMutated
        (packMutated (packMutated msgs (hasRun24 rid)) (hasRun24 rid)) (hasRun24 rid)) = [] := by
      rw [extractRefFileUrls_packMutated]; exact hu2
    have h1 := attemptRun_ct_false e1 msgs (hasRun24 rid) hu h1ct
    have h2 := attemptRun_ct_false e2 _ (hasRun24 rid) hu1 h2ct
    have h3 := attemptRun_ct_false e3 _ (hasRun24 rid) hu2 h3ct
    have h4 := attemptRun_ct_false e4 _ (hasRun24 rid) hu3 h4ct
    refine ⟨?_, ?_, ?_⟩ <;>
      simp [createCompletionRun, h1, h2, h3, h4, MAX_RETRY_COUNT]

theorem c4_content_type_substitution_witness :
    createCompletionStreamRun [envBadCT] msgsC4 [] 0 =
      ⟨.ok [syntheticUnavailableChunk], packMutated msgsC4 (hasRun24 []), 1, []⟩ ∧
    (createCompletionRun [envBadCT, envBadCT, envBadCT, envBadCT] msgsC4 [] 0).result =
      .error .contentTypeInvalid ∧
    (createCompletionRun [envBadCT, envBadCT, envBadCT, envBadCT] msgsC4 [] 0).attempts = 4 ∧
    (createCompletionRun [envBadCT, envBadCT, envBadCT, envBadCT] msgsC4 [] 0).delays =
      [RETRY_DELAY, RETRY_DELAY, RETRY_DELAY] :=
  ⟨c4_content_type_substitution.1 envBadCT [] msgsC4 [] (by decide) (by decide),
   c4_content_type_substitution.2 envBadCT envBadCT envBadCT envBadCT msgsC4 []
     (by decide) (by decide) (by decide) (by decide) (by decide)⟩

/-- **C4 counterexample**: with a bad-content-type first response and a
healthy upstream available for a retry, streaming mode substitutes the
synthetic chunk on attempt 1 while the retry budget is still unused —
the buffered run over the same environments retries once and succeeds.
The claim's "only once the retry bound has been exhausted" is false. -/
theorem c4_content_type_substitution_counterexample :
    createCompletionStreamRun [envBadCT, envGoodCT] msgsC4 [] 0 =
      ⟨.ok [syntheticUnavailableChunk], msgsC4, 1, []⟩ ∧
    createCompletionRun [envBadCT, envGoodCT] msgsC4 [] 0 =
      ⟨.ok ⟨[], []⟩, msgsC4, 2, [5000]⟩ := by
  refine ⟨by decide, by decide⟩

/-! ## Claim C5 -/

/-- **C5**.  The retry policy of the buffered orchestrator: the bounds are
`MAX_RETRY_COUNT = 3` and `RETRY_DELAY = 5000` ms; when the initial
attempt and all three retries fail — whatever each failure is — the last
error is raised to the caller after 4 attempts with three 5-second waits;
a successful attempt resolves immediately with no (further) retries, both
as the first attempt and after a failed one. -/
theorem c5_retry_policy :
    MAX_RETRY_COUNT = 3 ∧ RETRY_DELAY = 5000 ∧
    (∀ (e1 e2 e3 e4 : AttemptEnv) (msgs m1 m2 m3 m4 : List Msg) (rid : Str)
        (err1 err2 err3 err4 : ApiErr),
      attemptRun e1 msgs (hasRun24 rid) = (.error err1, m1) →
      attemptRun e2 m1 (hasRun24 rid) = (.error err2, m2) →
      attemptRun e3 m2 (hasRun24 rid) = (.error err3, m3) →
      attemptRun e4 m3 (hasRun24 rid) = (.error err4, m4) →
      createCompletionRun [e1, e2, e3, e4] msgs rid 0 =
        ⟨.error err4, m4, 4, [RETRY_DELAY, RETRY_DELAY, RETRY_DELAY]⟩) ∧
    (∀ (env : AttemptEnv) (envs : List AttemptEnv) (msgs ms : List Msg) (rid : Str)
        (a : Answer),
      attemptRun env msgs (hasRun24 rid) = (.ok a, ms) →
      createCompletionRun (env :: envs) msgs rid 0 = ⟨.ok a, ms, 1, []⟩) ∧
    (∀ (e1 e2 : AttemptEnv) (envs : List AttemptEnv) (msgs m1 m2 : List Msg) (rid : Str)
        (err1 : ApiErr) (a : Answer),
      attemptRun e1 msgs (hasRun24 rid) = (.error err1, m1) →
      attemptRun e2 m1 (hasRun24 rid) = (.ok a, m2) →
      createCompletionRun (e1 :: e2 :: envs) msgs rid 0 =
        ⟨.ok a, m2, 2, [RETRY_DELAY]⟩) := by
  refine ⟨rfl, rfl, ?_, ?_, ?_⟩
  · intro e1 e2 e3 e4 msgs m1 m2 m3 m4 rid err1 err2 err3 err4 h1 h2 h3 h4
    simp [createCompletionRun, h1, h2, h3, h4, MAX_RETRY_COUNT]
  · intro env envs msgs ms rid a h
    simp [createCompletionRun, h]
  · intro e1 e2 envs msgs m1 m2 rid err1 a h1 h2
    simp [createCompletionRun, h1, h2, MAX_RETRY_COUNT]

theorem c5_retry_policy_witness :
    createCompletionRun [envBadCT, envBadCT, envBadCT, envBadCT] msgsC4 [] 0 =
      ⟨.error .contentTypeInvalid, msgsC4, 4, [RETRY_DELAY, RETRY_DELAY, RETRY_DELAY]⟩ ∧
    createCompletionRun [envGoodCT] msgsC4 [] 0 = ⟨.ok ⟨[], []⟩, msgsC4, 1, []⟩ ∧
    createCompletionRun [envBadCT, envGoodCT] msgsC4 [] 0 =
      ⟨.ok ⟨[], []⟩, msgsC4, 2, [RETRY_DELAY]⟩ :=
  ⟨c5_retry_policy.2.2.1 envBadCT envBadCT envBadCT envBadCT msgsC4 msgsC4 msgsC4 msgsC4
     msgsC4 [] .contentTypeInvalid .contentTypeInvalid .contentTypeInvalid .contentTypeInvalid
     (by decide) (by decide) (by decide) (by decide),
   c5_retry_policy.2.2.2.1 envGoodCT [] msgsC4 msgsC4 [] ⟨[], []⟩ (by decide),
   c5_retry_policy.2.2.2.2 envBadCT envGoodCT [] msgsC4 msgsC4 msgsC4 []
     .contentTypeInvalid ⟨[], []⟩ (by decide) (by decide)⟩

/-! ## Claim C10 -/

theorem packMutated_splice (msgs : List Msg) (last : Msg)
    (hl : msgs.getLast? = some last) (h2 : 2 ≤ msgs.length)
    (hfi : msgHasFileOrImage last = true) :
    packMutated msgs false =
      msgs.take (msgs.length - 1) ++ sysFileMsg :: msgs.drop (msgs.length - 1) := by
  unfold packMutated
  rw [if_neg]
  · simp only [hl]
    rw [if_pos hfi]
    exact insertIdx_take_drop sysFileMsg (msgs.length - 1) msgs (Nat.sub_le _ _)
  · intro h
    rcases h with h | h
    · exact Bool.false_ne_true h
    · omega

def eC10 : AttemptEnv := ⟨[eTosC3], false, []⟩

def msgsC10 : List Msg :=
  [⟨.user, .mstr (strOf "a")⟩,
   ⟨.user, .mparts [.pimage urlC3png, .ptext (strOf "b")]⟩]

/-- **C10**.  The packer is not pure on its input: in the multi-message,
non-reference branch with a file/image part in the last message,
`messagesPrepare` splices the synthetic system message into the messages
array at position `length - 1` (first conjunct), raising the number of
copies of that message by one per pack (second conjunct); a buffered run
whose four attempts all fail re-packs the already-mutated array each
time, accumulating one copy per attempt (third conjunct: four failed
attempts leave four copies where the input had none). -/
theorem c10_packer_mutation :
    (∀ (msgs : List Msg) (refs : List (Option Ref)) (last : Msg),
      msgs.getLast? = some last → 2 ≤ msgs.length → msgHasFileOrImage last = true →
      (messagesPrepare msgs refs false).2 =
        msgs.take (msgs.length - 1) ++ sysFileMsg :: msgs.drop (msgs.length - 1)) ∧
    (∀ (msgs : List Msg) (last : Msg),
      msgs.getLast? = some last → 2 ≤ msgs.length → msgHasFileOrImage last = true →
      (packMutated msgs false).count sysFileMsg = msgs.count sysFileMsg + 1) ∧
    ((createCompletionRun [eC10, eC10, eC10, eC10] msgsC10 [] 0).msgs.count sysFileMsg = 4 ∧
      msgsC10.count sysFileMsg = 0) := by
  refine ⟨?_, ?_, by decide, by decide⟩
  · intro msgs refs last hl h2 hfi
    rw [messagesPrepare_snd]
    exact packMutated_splice msgs last hl h2 hfi
  · intro msgs last hl h2 hfi
    rw [packMutated_splice msgs last hl h2 hfi, List.count_append]
    conv_rhs => rw [← List.take_append_drop (msgs.length - 1) msgs, List.count_append]
    rw [List.count_cons_self]
    omega

theorem c10_packer_mutation_witness :
    (messagesPrepare msgsC10 [] false).2 =
      msgsC10.take (msgsC10.length - 1) ++ sysFileMsg :: msgsC10.drop (msgsC10.length - 1) ∧
    (packMutated msgsC10 false).count sysFileMsg = msgsC10.count sysFileMsg + 1 :=
  ⟨c10_packer_mutation.1 msgsC10 []
     ⟨.user, .mparts [.pimage urlC3png, .ptext (strOf "b")]⟩
     (by decide) (by decide) (by decide),
   c10_packer_mutation.2.1 msgsC10
     ⟨.user, .mparts [.pimage urlC3png, .ptext (strOf "b")]⟩
     (by decide) (by decide) (by decide)⟩

/-! ## Request signer (`rfc3986Encode`, `canonicalQuery`, `buildAuthorization`)

Modelled from the documented behavior of node's `crypto` (SHA-256 and
HMAC-SHA256 over bytes, with 32-bit words as `Nat` reduced mod `2^32`)
and of `encodeURIComponent`; everything else is translated from the
source. -/

def w32 (n : Nat) : Nat := n % 4294967296

def rotr32 (n x : Nat) : Nat := w32 (x / 2 ^ n + x % 2 ^ n * 2 ^ (32 - n))

def shr32 (n x : Nat) : Nat := x / 2 ^ n

def not32 (x : Nat) : Nat := 4294967295 - x % 4294967296

def bigSigma0 (x : Nat) : Nat := Nat.xor (Nat.xor (rotr32 2 x) (rotr32 13 x)) (rotr32 22 x)
def bigSigma1 (x : Nat) : Nat := Nat.xor (Nat.xor (rotr32 6 x) (rotr32 11 x)) (rotr32 25 x)
def smallSigma0 (x : Nat) : Nat := Nat.xor (Nat.xor (rotr32 7 x) (rotr32 18 x)) (shr32 3 x)
def smallSigma1 (x : Nat) : Nat := Nat.xor (Nat.xor (rotr32 17 x) (rotr32 19 x)) (shr32 10 x)
def chFn (e f g : Nat) : Nat := Nat.xor (Nat.land e f) (Nat.land (not32 e) g)
def majFn (a b c : Nat) : Nat := Nat.xor (Nat.xor (Nat.land a b) (Nat.land a c)) (Nat.land b c)

/-- The 64 SHA-256 round constants of FIPS 180-4 (fractional parts of the
cube roots of the first 64 primes), in decimal. -/
def K256 : List Nat :=
  [1116352408, 1899447441, 3049323471, 3921009573, 961987163,
   1508970993, 2453635748, 2870763221, 3624381080, 310598401,
   607225278, 1426881987, 1925078388, 2162078206, 2614888103,
   3248222580, 3835390401, 4022224774, 264347078, 604807628,
   770255983, 1249150122, 1555081692, 1996064986, 2554220882,
   2821834349, 2952996808, 3210313671, 3336571891, 3584528711,
   113926993, 338241895, 666307205, 773529912, 1294757372,
   1396182291, 1695183700, 1986661051, 2177026350, 2456956037,
   2730485921, 2820302411, 3259730800, 3345764771, 3516065817,
   3600352804, 4094571909, 275423344, 430227734, 506948616,
   659060556, 883997877, 958139571, 1322822218, 1537002063,
   1747873779, 1955562222, 2024104815, 2227730452, 2361852424,
   2428436474, 2756734187, 3204031479, 3329325298]

/-- The eight SHA-256 initial hash values, in decimal. -/
def H256init : List Nat :=
  [1779033703, 3144134277, 1013904242, 2773480762,
   1359893119, 2600822924, 528734635, 1541459225]

/-- `k` big-endian bytes of `n`. -/
def beBytes : Nat → Nat → List Nat
  | 0, _ => []
  | k + 1, n => beBytes k (n / 256) ++ [n % 256]

def sha256Pad (msg : List Nat) : List Nat :=
  let L := msg.length
  let k := (119 - L % 64) % 64
  msg ++ 0x80 :: List.replicate k 0 ++ beBytes 8 (8 * L)

def chunks64 : Nat → List Nat → List (List Nat)
  | 0, _ => []
  | _, [] => []
  | fuel + 1, l => l.take 64 :: chunks64 fuel (l.drop 64)

/-- Message-schedule extension from 16 to 64 words. -/
def wExt (ws : List Nat) : List Nat :=
  (List.range 48).foldl (fun acc _ =>
    let n := acc.length
    acc ++ [w32 (smallSigma1 (acc.getD (n - 2) 0) + acc.getD (n - 7) 0 +
      smallSigma0 (acc.getD (n - 15) 0) + acc.getD (n - 16) 0)]) ws

def compressStep (st : List Nat) (kw : Nat × Nat) : List Nat :=
  match st with
  | [a, b, c, d, e, f, g, h] =>
    let t1 := w32 (h + bigSigma1 e + chFn e f g + kw.1 + kw.2)
    let t2 := w32 (bigSigma0 a + majFn a b c)
    [w32 (t1 + t2), a, b, c, w32 (d + t1), e, f, g]
  | _ => st

def compressBlock (H : List Nat) (block : List Nat) : List Nat :=
  let ws := wExt ((List.range 16).map (fun i => readU32BE block (4 * i)))
  let st := (K256.zip ws).foldl compressStep H
  (H.zip st).map (fun p => w32 (p.1 + p.2))

def sha256 (msg : List Nat) : List Nat :=
  let padded := sha256Pad msg
  let Hf := (chunks64 (padded.length + 1) padded).foldl compressBlock H256init
  (List.range 8).flatMap (fun i => beBytes 4 (Hf.getD i 0))

def hexByte (b : Nat) : Str := [hexDigitLower (b / 16), hexDigitLower (b % 16)]

def hexOfBytes (bs : List Nat) : Str := bs.flatMap hexByte

def sha256Hex (s : Str) : Str := hexOfBytes (sha256 (strBytes s))

/-- HMAC-SHA256 with the standard 64-byte block. -/
def hmacSha256 (key msg : List Nat) : List Nat :=
  let k0 :=
    if 64 < key.length then sha256 key ++ List.replicate 32 0
    else key ++ List.replicate (64 - key.length) 0
  sha256 ((k0.map (fun b => Nat.xor b 0x5c)) ++
    sha256 ((k0.map (fun b => Nat.xor b 0x36)) ++ msg))

example : hexOfBytes (sha256 (strBytes (strOf "abc"))) =
    strOf "ba7816bf8f01cfea414140de5dae2223b00361a396177a9cb410ff61f20015ad" := by decide

/-- `rfc3986Encode`: `encodeURIComponent` (unreserved characters pass,
everything else becomes uppercase `%XX` per UTF-8 byte) followed by the
source's extra escaping of `!*'()` — so exactly `A-Za-z0-9-_.~` pass. -/
def rfc3986Encode (s : Str) : Str :=
  s.flatMap (fun c =>
    if isAlnumC c || c == '-' || c == '_' || c == '.' || c == '~' then [c]
    else (utf8EncodeChar c).flatMap (fun b =>
      ['%', hexDigitUpper (b / 16), hexDigitUpper (b % 16)]))

/-- Lexicographic order on code points — `Array.prototype.sort`'s default
string comparison (identical on the ASCII keys used here). -/
def strLtC : Str → Str → Bool
  | [], [] => false
  | [], _ :: _ => true
  | _ :: _, [] => false
  | a :: as, b :: bs =>
    if a.toNat < b.toNat then true
    else if b.toNat < a.toNat then false
    else strLtC as bs

def insertByKey (p : Str × Str) : List (Str × Str) → List (Str × Str)
  | [] => [p]
  | q :: rest => if strLtC q.1 p.1 then q :: insertByKey p rest else p :: q :: rest

def sortByKey (l : List (Str × Str)) : List (Str × Str) := l.foldr insertByKey []

/-- `canonicalQuery`: keys sorted, each pair rendered
`enc(k)=enc(v)`, joined by `&`. -/
def canonicalQuery (params : List (Str × Str)) : Str :=
  joinWith (strOf "&")
    ((sortByKey params).map (fun p => rfc3986Encode p.1 ++ '=' :: rfc3986Encode p.2))

def natDec (n : Nat) : Str := Nat.toDigits 10 n

/-- The `pad` helper of `amzDates`. -/
def pad2 (n : Nat) : Str := if n < 10 then '0' :: natDec n else natDec n

/-- Civil date from days since 1970-01-01 (proleptic Gregorian; the
standard era/day-of-era computation, exact for all non-negative days) —
models the UTC field extraction of the JS `Date`. -/
def epochCivil (days : Nat) : Nat × Nat × Nat :=
  let z := days + 719468
  let era := z / 146097
  let doe := z % 146097
  let yoe := (doe - doe / 1460 + doe / 36524 - doe / 146096) / 365
  let y := yoe + era * 400
  let doy := doe - (365 * yoe + yoe / 4 - yoe / 100)
  let mp := (5 * doy + 2) / 153
  let d := doy - (153 * mp + 2) / 5 + 1
  let m := if mp < 10 then mp + 3 else mp - 9
  (if m ≤ 2 then y + 1 else y, m, d)

/-- `amzDates` from epoch seconds: `(amzDate, dateStamp)` =
(`YYYYMMDD'T'HHMMSS'Z'`, `YYYYMMDD`). -/
def amzDatesSec (sec : Nat) : Str × Str :=
  let days := sec / 86400
  let sod := sec % 86400
  let c := epochCivil days
  let dateStamp := natDec c.1 ++ pad2 c.2.1 ++ pad2 c.2.2
  (dateStamp ++ strOf "T" ++ pad2 (sod / 3600) ++ pad2 (sod % 3600 / 60) ++
    pad2 (sod % 60) ++ strOf "Z", dateStamp)

/-- `new Date()` truncated to seconds by `amzDates`'s field extraction. -/
def amzDatesOf (ms : Nat) : Str × Str := amzDatesSec (ms / 1000)

example : amzDatesOf 1760227199123 = (strOf "20251011T235959Z", strOf "20251011") := by decide

def IMAGEX_REGION : Str := strOf "cn-north-1"
def IMAGEX_SERVICE : Str := strOf "imagex"

/-- The AWS4 signing-key derivation chain. -/
def signingKey (secretKey dateStamp region service : Str) : List Nat :=
  hmacSha256
    (hmacSha256
      (hmacSha256
        (hmacSha256 (strBytes (strOf "AWS4" ++ secretKey)) (strBytes dateStamp))
        (strBytes region))
      (strBytes service))
    (strBytes (strOf "aws4_request"))

/-- The sorted signed-header list of `buildAuthorization`. -/
def signedHeaderList (host amzDate sessionToken payloadHash : Str)
    (signContentSha256 : Bool) : List (Str × Str) :=
  sortByKey
    ([(strOf "host", host), (strOf "x-amz-date", amzDate)] ++
      (if sessionToken.isEmpty then [] else
        [(strOf "x-amz-security-token", sessionToken)]) ++
      (if signContentSha256 then [(strOf "x-amz-content-sha256", payloadHash)] else []))

/-- The `stringToSign` of `buildAuthorization` (canonical request hashed
inside). -/
def stringToSignOf (method host path : Str) (params : List (Str × Str))
    (sessionToken : Str) (region service : Str) (payloadHashOpt : Option Str)
    (signContentSha256 : Bool) (ms : Nat) : Str :=
  let amzDate := (amzDatesOf ms).1
  let dateStamp := (amzDatesOf ms).2
  let payloadHash := payloadHashOpt.getD (sha256Hex [])
  let sorted := signedHeaderList host amzDate sessionToken payloadHash signContentSha256
  let canonicalHeaders := (sorted.map (fun p => p.1 ++ ':' :: p.2 ++ strOf "\n")).flatten
  let signedHeaders := joinWith (strOf ";") (sorted.map (fun p => p.1))
  let canonicalRequest := joinWith (strOf "\n")
    [method, path, canonicalQuery params, canonicalHeaders, signedHeaders, payloadHash]
  joinWith (strOf "\n")
    [strOf "AWS4-HMAC-SHA256", amzDate,
     dateStamp ++ strOf "/" ++ region ++ strOf "/" ++ service ++ strOf "/aws4_request",
     sha256Hex canonicalRequest]

/-- `buildAuthorization` (the returned `authorization` header value). -/
def buildAuthorization (method host path : Str) (params : List (Str × Str))
    (sessionToken accessKey secretKey : Str) (region service : Str)
    (payloadHashOpt : Option Str) (signContentSha256 : Bool) (ms : Nat) : Str :=
  let amzDate := (amzDatesOf ms).1
  let dateStamp := (amzDatesOf ms).2
  let payloadHash := payloadHashOpt.getD (sha256Hex [])
  let sorted := signedHeaderList host amzDate sessionToken payloadHash signContentSha256
  let signedHeaders := joinWith (strOf ";") (sorted.map (fun p => p.1))
  let signature := hexOfBytes (hmacSha256 (signingKey secretKey dateStamp region service)
    (strBytes (stringToSignOf method host path params sessionToken region service
      payloadHashOpt signContentSha256 ms)))
  strOf "AWS4-HMAC-SHA256 Credential=" ++ accessKey ++ strOf "/" ++ dateStamp ++
    strOf "/" ++ region ++ strOf "/" ++ service ++ strOf "/aws4_request" ++
    strOf ", SignedHeaders=" ++ signedHeaders ++ strOf ", Signature=" ++ signature

/-! ## Claim C8 — supporting lemmas -/

theorem beBytes_length : ∀ (k n : Nat), (beBytes k n).length = k
  | 0, _ => rfl
  | k + 1, n => by simp [beBytes, beBytes_length k]

theorem beBytes_mem_lt : ∀ (k n b : Nat), b ∈ beBytes k n → b < 256
  | 0, _, _, h => by simp [beBytes] at h
  | k + 1, n, b, h => by
    simp only [beBytes, List.mem_append, List.mem_singleton] at h
    rcases h with h | h
    · exact beBytes_mem_lt k _ b h
    · subst h; exact Nat.mod_lt _ (by omega)

theorem sha256_length (msg : List Nat) : (sha256 msg).length = 32 := by
  unfold sha256
  rw [show List.range 8 = [0, 1, 2, 3, 4, 5, 6, 7] from rfl]
  simp [List.flatMap_cons, beBytes_length]

theorem sha256_mem_lt (msg : List Nat) : ∀ b ∈ sha256 msg, b < 256 := by
  intro b hb
  unfold sha256 at hb
  simp only [List.mem_flatMap] at hb
  obtain ⟨i, _, hbi⟩ := hb
  exact beBytes_mem_lt 4 _ b hbi

theorem hmacSha256_length (key msg : List Nat) : (hmacSha256 key msg).length = 32 := by
  unfold hmacSha256
  exact sha256_length _

theorem hmacSha256_mem_lt (key msg : List Nat) : ∀ b ∈ hmacSha256 key msg, b < 256 := by
  unfold hmacSha256
  exact sha256_mem_lt _

/-- Big-endian base-256 value of a byte string. -/
def beVal : List Nat → Nat
  | [] => 0
  | b :: t => b * 256 ^ t.length + beVal t

theorem beVal_lt : ∀ (l : List Nat), (∀ b ∈ l, b < 256) → beVal l < 256 ^ l.length
  | [], _ => by simp [beVal]
  | b :: t, h => by
    have hb : b < 256 := h b (by simp)
    have hv : beVal t < 256 ^ t.length := beVal_lt t (fun x hx => h x (by simp [hx]))
    show b * 256 ^ t.length + beVal t < 256 ^ (t.length + 1)
    calc b * 256 ^ t.length + beVal t < b * 256 ^ t.length + 256 ^ t.length := by omega
      _ ≤ 255 * 256 ^ t.length + 256 ^ t.length := by
          exact Nat.add_le_add_right (Nat.mul_le_mul_right _ (by omega)) _
      _ = 256 ^ t.length * 256 := by ring
      _ = 256 ^ (t.length + 1) := by rw [pow_succ]

theorem beVal_inj : ∀ (l1 l2 : List Nat), l1.length = l2.length →
    (∀ b ∈ l1, b < 256) → (∀ b ∈ l2, b < 256) → beVal l1 = beVal l2 → l1 = l2
  | [], [], _, _, _, _ => rfl
  | [], b :: t, h, _, _, _ => by simp at h
  | b :: t, [], h, _, _, _ => by simp at h
  | b1 :: t1, b2 :: t2, hlen, h1, h2, hv => by
    have hlt : t1.length = t2.length := by simpa using hlen
    have hv1 : beVal t1 < 256 ^ t1.length := beVal_lt t1 (fun x hx => h1 x (by simp [hx]))
    have hv2 : beVal t2 < 256 ^ t2.length := beVal_lt t2 (fun x hx => h2 x (by simp [hx]))
    have hveq : b1 * 256 ^ t1.length + beVal t1 = b2 * 256 ^ t2.length + beVal t2 := hv
    rw [hlt] at hv1 hveq
    have hP : 0 < 256 ^ t2.length := Nat.pos_pow_of_pos _ (by omega)
    have hb : b1 = b2 := by
      have hd := congrArg (fun x => x / 256 ^ t2.length) hveq
      simp only [] at hd
      rw [Nat.mul_comm b1 _, Nat.mul_comm b2 _, Nat.mul_add_div hP, Nat.mul_add_div hP,
        Nat.div_eq_of_lt hv1, Nat.div_eq_of_lt hv2] at hd
      omega
    subst hb
    have ht : beVal t1 = beVal t2 := Nat.add_left_cancel hveq
    rw [beVal_inj t1 t2 hlt (fun x hx => h1 x (by simp [hx]))
      (fun x hx => h2 x (by simp [hx])) ht]

/-- `encodeURIComponent` is the identity on alphanumeric strings. -/
theorem rfc3986Encode_alnum : ∀ (v : Str), (∀ c ∈ v, isAlnumC c = true) →
    rfc3986Encode v = v
  | [], _ => rfl
  | c :: cs, h => by
    have hc : isAlnumC c = true := h c (by simp)
    show (if isAlnumC c || c == '-' || c == '_' || c == '.' || c == '~' then [c]
      else (utf8EncodeChar c).flatMap (fun b =>
        ['%', hexDigitUpper (b / 16), hexDigitUpper (b % 16)])) ++ rfc3986Encode cs = c :: cs
    rw [hc]
    simp only [Bool.true_or, if_pos rfl]
    rw [rfc3986Encode_alnum cs (fun x hx => h x (by simp [hx]))]
    rfl

theorem canonicalQuery_single (k v : Str) :
    canonicalQuery [(k, v)] = rfc3986Encode k ++ '=' :: rfc3986Encode v := rfl

/-- **C8** (amended).  The signer is deterministic given the second: two
runs whose millisecond clocks fall in the same second produce identical
authorization headers on identical inputs.  And changing the single query
value does change the canonical query string (shown here for
alphanumeric values, where the RFC 3986 encoding is faithful) — but it
does not always change the *signature*, as the counterexample shows. -/
theorem c8_signature_determinism :
    (∀ (method host path : Str) (params : List (Str × Str))
        (sessionToken accessKey secretKey region service : Str)
        (payloadHashOpt : Option Str) (signContentSha256 : Bool) (ms1 ms2 : Nat),
      ms1 / 1000 = ms2 / 1000 →
      buildAuthorization method host path params sessionToken accessKey secretKey
          region service payloadHashOpt signContentSha256 ms1 =
        buildAuthorization method host path params sessionToken accessKey secretKey
          region service payloadHashOpt signContentSha256 ms2) ∧
    (∀ (k v1 v2 : Str),
      (∀ c ∈ v1, isAlnumC c = true) → (∀ c ∈ v2, isAlnumC c = true) → v1 ≠ v2 →
      canonicalQuery [(k, v1)] ≠ canonicalQuery [(k, v2)]) := by
  constructor
  · intro method host path params sessionToken accessKey secretKey region service
      payloadHashOpt signContentSha256 ms1 ms2 h
    simp only [buildAuthorization, stringToSignOf, amzDatesOf, h]
  · intro k v1 v2 h1 h2 hne hq
    apply hne
    rw [canonicalQuery_single, canonicalQuery_single,
      rfc3986Encode_alnum v1 h1, rfc3986Encode_alnum v2 h2] at hq
    have := List.append_cancel_left hq
    simpa using this

theorem c8_signature_determinism_witness :
    1500 / 1000 = 1999 / 1000 ∧
    buildAuthorization (strOf "GET") (strOf "imagex.bytedanceapi.com") (strOf "/")
        [(strOf "Action", strOf "ApplyImageUpload")] (strOf "tok") (strOf "ak") (strOf "sk")
        IMAGEX_REGION IMAGEX_SERVICE none false 1500 =
      buildAuthorization (strOf "GET") (strOf "imagex.bytedanceapi.com") (strOf "/")
        [(strOf "Action", strOf "ApplyImageUpload")] (strOf "tok") (strOf "ak") (strOf "sk")
        IMAGEX_REGION IMAGEX_SERVICE none false 1999 ∧
    canonicalQuery [(strOf "a", strOf "x")] ≠ canonicalQuery [(strOf "a", strOf "y")] :=
  ⟨by decide,
   c8_signature_determinism.1 (strOf "GET") (strOf "imagex.bytedanceapi.com") (strOf "/")
     [(strOf "Action", strOf "ApplyImageUpload")] (strOf "tok") (strOf "ak") (strOf "sk")
     IMAGEX_REGION IMAGEX_SERVICE none false 1500 1999 (by decide),
   c8_signature_determinism.2 (strOf "a") (strOf "x") (strOf "y")
     (by decide) (by decide) (by decide)⟩

/-! The refutation of the injectivity half: the signature is 32 bytes of
HMAC-SHA256, so over the infinitely many possible values of a single
query parameter two distinct values must collide (pigeonhole); for such a
pair the full authorization headers coincide. -/

def c8Params (n : Nat) : List (Str × Str) := [(strOf "a", List.replicate n 'a')]

/-- The signature digest of `buildAuthorization` over `c8Params n` with
the other inputs fixed. -/
def c8Digest (n : Nat) : List Nat :=
  hmacSha256 (signingKey (strOf "sk") (amzDatesOf 0).2 IMAGEX_REGION IMAGEX_SERVICE)
    (strBytes (stringToSignOf (strOf "GET") (strOf "imagex.bytedanceapi.com") (strOf "/")
      (c8Params n) (strOf "tok") IMAGEX_REGION IMAGEX_SERVICE none false 0))

def c8Auth (n : Nat) : Str :=
  buildAuthorization (strOf "GET") (strOf "imagex.bytedanceapi.com") (strOf "/")
    (c8Params n) (strOf "tok") (strOf "ak") (strOf "sk")
    IMAGEX_REGION IMAGEX_SERVICE none false 0

theorem c8Auth_eq (n : Nat) :
    c8Auth n =
      strOf "AWS4-HMAC-SHA256 Credential=" ++ strOf "ak" ++ strOf "/" ++ (amzDatesOf 0).2 ++
        strOf "/" ++ IMAGEX_REGION ++ strOf "/" ++ IMAGEX_SERVICE ++ strOf "/aws4_request" ++
        strOf ", SignedHeaders=" ++
        joinWith (strOf ";") ((signedHeaderList (strOf "imagex.bytedanceapi.com")
          (amzDatesOf 0).1 (strOf "tok") (sha256Hex []) false).map (fun p => p.1)) ++
        strOf ", Signature=" ++ hexOfBytes (c8Digest n) := rfl

/-- **C8 counterexample**: two distinct values of the single query
parameter whose signatures (and hence whole authorization headers)
coincide — "changing any single query value changes the signature" cannot
hold, because the digest space is finite. -/
theorem c8Digest_length (n : Nat) : (c8Digest n).length = 32 := hmacSha256_length _ _

theorem c8Digest_mem_lt (n : Nat) : ∀ b ∈ c8Digest n, b < 256 := hmacSha256_mem_lt _ _

theorem c8_signature_determinism_counterexample :
    ∃ m n : Nat, m ≠ n ∧ c8Params m ≠ c8Params n ∧ c8Auth m = c8Auth n := by
  have hb : ∀ k : Nat, beVal (c8Digest k) < 256 ^ 32 := by
    intro k
    have h1 := beVal_lt (c8Digest k) (c8Digest_mem_lt k)
    rwa [c8Digest_length] at h1
  obtain ⟨m, n, hmn, heq⟩ := Finite.exists_ne_map_eq_of_infinite
    (fun k : Nat => (⟨beVal (c8Digest k), hb k⟩ : Fin (256 ^ 32)))
  have hv : beVal (c8Digest m) = beVal (c8Digest n) := by
    have := congrArg Fin.val heq
    simpa using this
  have hdig : c8Digest m = c8Digest n :=
    beVal_inj _ _ (by rw [c8Digest_length, c8Digest_length])
      (c8Digest_mem_lt m) (c8Digest_mem_lt n) hv
  refine ⟨m, n, hmn, ?_, ?_⟩
  · intro hp
    apply hmn
    have := congrArg (fun l : List (Str × Str) => ((l.headD ([], [])).2).length) hp
    simpa [c8Params] using this
  · rw [c8Auth_eq m, c8Auth_eq n, hdig]
